import Mathlib

/-!
OpenClaw Mission Control — verification of the gateway WebSocket client

Shallow embedding of the WebSocket gateway client of `src/api-proxy.js`
(the module-level functions `gwConnect`, `gwSendConnect`, `gwCall` and the
module-level mutable state `gwSocket`, `gwReady`, `gwPending`, `gwReqId`,
`gwEvents`, `gwReconnectTimer`, `gwSnapshot`).

Modelling decisions, all forced by the source:

* JSON values are the inductive `JVal`.  Correlation-id tokens — the strings
  `rpc-${n}` produced by `gwCall` and the v4 UUIDs produced by
  `crypto.randomUUID()` in `gwSendConnect` — are represented by the inductive
  `GwId` (the spec describes the id as an abstract token).  The two constructors
  stand for the two disjoint string namespaces: a decimal string prefixed
  with `rpc-` is never a v4 UUID, and `rpc-${n} = rpc-${m}` iff `n = m`.
  `JVal.tok` embeds a token as a JSON string value.

* Timers are implicit: a pending entry's deadline timer is armed exactly
  while the entry is in the map, because the source clears the timer at
  precisely the points where it deletes the entry (response match and the
  close handler), and the timer's own callback deletes the entry when it
  fires.  A timer expiry is the action `GwAction.timerFire id`, enabled (as a
  non-stutter step) only while `id` is in the map.  `clearTimeout` calls are
  recorded as `Effect.cancelTimer` so that timer cancellation is observable.

* Promise settlement (`resolve`/`reject` of a caller's promise, and the
  internal `resolve`/`reject` handlers of the connect-auth entry) is recorded
  as an `Effect.settle` carrying the entry's id, the path that settled it,
  and the outcome.  JavaScript guarantees a promise settles at most once per
  `resolve`/`reject` call site; what must be proved is that the client
  invokes `resolve`/`reject` for a given call exactly once, which is what the
  effect log makes visible.

* `Date.now()` and the random UUIDs are environment inputs, passed in with
  the action that consumes them.
-/

/-- Correlation-id tokens: `GwId.rpc n` models the string `rpc-${n}` built by
`gwCall` from the counter `gwReqId`; `GwId.uuid s` models a
`crypto.randomUUID()` string (used for the connect-auth request).  The two
namespaces are disjoint in the source, which the two constructors reflect. -/
inductive GwId where
  | rpc (n : Nat)
  | uuid (s : String)
deriving DecidableEq, Repr

/-- JSON values as delivered by `JSON.parse`, with correlation-id tokens
(`GwId`) distinguished from other strings. -/
inductive JVal where
  | null
  | bool (b : Bool)
  | num (n : Int)
  | str (s : String)
  | tok (t : GwId)
  | arr (xs : List JVal)
  | obj (fs : List (String × JVal))

namespace JVal

/-- JavaScript truthiness of a value: `null`, `false`, `0` and `""` are
falsy; every object, array, token and other primitive is truthy. -/
def truthy : JVal → Bool
  | .null => false
  | .bool b => b
  | .num n => n != 0
  | .str s => s != ""
  | .tok _ => true
  | .arr _ => true
  | .obj _ => true

/-- The fields of an object value (`[]` for non-objects). -/
def fields : JVal → List (String × JVal)
  | .obj fs => fs
  | _ => []

end JVal

/-- Property access `v.k`: `some` the field value if `v` is an object with
field `k`, otherwise `none` (JavaScript `undefined`). -/
def getField (v : JVal) (k : String) : Option JVal :=
  match v with
  | .obj fs => (fs.find? (fun p => p.1 = k)).map (·.2)
  | _ => none

/-- Optional chaining `v?.k` applied to an optional value. -/
def getFieldOpt (v : Option JVal) (k : String) : Option JVal :=
  v.bind (fun w => getField w k)

/-- Truthiness of a possibly-absent value (`undefined` is falsy). -/
def otruthy (v : Option JVal) : Bool :=
  match v with
  | none => false
  | some w => w.truthy

/-- JavaScript `a || b` on a possibly-absent left operand. -/
def jsOr (a : Option JVal) (b : JVal) : JVal :=
  match a with
  | some w => if w.truthy then w else b
  | none => b

/-- Strict string comparison `v === "s"` on a possibly-absent value. -/
def oStrEq (v : Option JVal) (s : String) : Bool :=
  match v with
  | some (.str t) => t == s
  | _ => false

/-- Strict comparison `v === false` on a possibly-absent value. -/
def oIsFalse (v : Option JVal) : Bool :=
  match v with
  | some (.bool false) => true
  | _ => false

/-- Key-preserving field update used to model the JavaScript object spread:
if the key exists its value is overwritten in place, otherwise the pair is
appended.  This matches the key-ordering semantics of `{ ...base, k: v }`
style object literals built left to right. -/
def setField : List (String × JVal) → String → JVal →
    List (String × JVal)
  | [], k, v => [(k, v)]
  | p :: fs, k, v => if p.1 = k then (k, v) :: fs else p :: setField fs k v

/-- Spread `{ ...base, ...src }`: fold the source fields over the base with
`setField`, so later fields overwrite earlier ones of the same key and new
keys are appended in source order. -/
def spreadFields (base src : List (String × JVal)) : List (String × JVal) :=
  src.foldl (fun acc p => setField acc p.1 p.2) base

/-- A pending entry's role: an application RPC issued by `gwCall` (whose
`resolve`/`reject` settle the caller's promise), or the connect-auth request
registered by `gwSendConnect` (whose handlers flip `gwReady`/`gwSnapshot`
or merely log). -/
inductive PKind where
  | rpc (method : String)
  | connectAuth
deriving DecidableEq, Repr

/-- One entry of `gwPending`: its role and the delay (ms) its deadline timer
was armed with. -/
structure PendingEntry where
  kind : PKind
  timeoutMs : Nat
deriving DecidableEq, Repr

/-- Build a pending entry. -/
def mkEntry (k : PKind) (t : Nat) : PendingEntry :=
  PendingEntry.mk k t

/-- Lookup (`Map.get`) on the pending map (insertion-ordered association list with
unique keys). -/
def pget : List (GwId × PendingEntry) → GwId → Option PendingEntry
  | [], _ => none
  | p :: m, i => if p.1 = i then some p.2 else pget m i

/-- Insertion (`Map.set`) on the pending map: overwrite in place if the key exists,
append otherwise. -/
def pset : List (GwId × PendingEntry) → GwId → PendingEntry →
    List (GwId × PendingEntry)
  | [], i, e => [(i, e)]
  | p :: m, i, e => if p.1 = i then (i, e) :: m else p :: pset m i e

/-- Deletion (`Map.delete`) on the pending map. -/
def pdel : List (GwId × PendingEntry) → GwId → List (GwId × PendingEntry)
  | [], _ => []
  | p :: m, i => if p.1 = i then pdel m i else p :: pdel m i

/-- The `readyState` of the underlying WebSocket. -/
inductive SockSt where
  | connecting
  | open
  | closing
  | closed
deriving DecidableEq, Repr

/-- The module-level mutable state of the gateway client.  `gwSocket = none`
models `gwSocket === null`; `gwReconnectTimer = some d` models an armed
reconnect timer with delay `d` ms. -/
structure GwState where
  gwSocket : Option SockSt
  gwReady : Bool
  gwPending : List (GwId × PendingEntry)
  gwReqId : Nat
  gwEvents : List JVal
  gwReconnectTimer : Option Nat
  gwSnapshot : Option JVal

/-- The state at module load. -/
def initialGwState : GwState :=
  { gwSocket := none
    gwReady := false
    gwPending := []
    gwReqId := 0
    gwEvents := []
    gwReconnectTimer := none
    gwSnapshot := none }

/-- How a pending entry was settled. -/
inductive SettlePath where
  | response
  | timeout
  | disconnect
deriving DecidableEq, Repr

/-- Settlement outcome: `resolve` with a value or `reject` with a reason. -/
inductive Outcome where
  | ok (v : JVal)
  | fail (reason : String)

/-- Observable side effects of a step. -/
inductive Effect where
  /-- Handlers `resolve`/`reject` invoked on the entry with id `i`. -/
  | settle (i : GwId) (path : SettlePath) (out : Outcome)
  /-- Rejection by `gwCall` of the fresh promise before allocating an entry. -/
  | immediateReject (reason : String)
  /-- A call `gwSocket.send(JSON.stringify(frame))`. -/
  | sendFrame (frame : JVal)
  /-- A call `gwSocket.close(code, reason)`. -/
  | closeSock (code : Nat) (reason : String)
  /-- A `clearTimeout` on the entry with id `i`. -/
  | cancelTimer (i : GwId)
  /-- Arming the reconnect timer with the given delay (ms). -/
  | armReconnect (delay : Nat)
  /-- A `console.log` output (content irrelevant to the claims). -/
  | log (s : String)

/-- Default RPC timeout: `gwCall(method, args, timeoutMs = 15000)`. -/
def gwCallDefaultTimeout : Nat := 15000

/-- Connect-auth timeout: the `10000` in `gwSendConnect`. -/
def gwConnectTimeout : Nat := 10000

/-- Reconnect delay: the `3000` in the close handler. -/
def gwReconnectDelay : Nat := 3000

/-- Event-buffer capacity: the `50` in the event branch. -/
def gwEventsCap : Nat := 50

/-- The function `gwConnect()`: a no-op when a socket exists in `OPEN` or `CONNECTING`
state; otherwise creates a fresh socket (readyState `CONNECTING`) and clears
`gwReady`. -/
def gwConnectStep (s : GwState) : GwState × List Effect :=
  match s.gwSocket with
  | some st =>
      if st = SockSt.open ∨ st = SockSt.connecting then (s, [])
      else ({ s with gwSocket := some SockSt.connecting, gwReady := false },
            [Effect.log "connecting"])
  | none =>
      ({ s with gwSocket := some SockSt.connecting, gwReady := false },
       [Effect.log "connecting"])

/-- The `open` event of the socket: the library moves `readyState` to `OPEN`;
the handler only logs. -/
def sockOpenStep (s : GwState) : GwState × List Effect :=
  match s.gwSocket with
  | some SockSt.connecting =>
      ({ s with gwSocket := some SockSt.open }, [Effect.log "open"])
  | _ => (s, [])

/-- The function `gwSendConnect(nonce)` with the two fresh UUIDs supplied by the
environment: build and send the auth frame, then register the connect-auth
pending entry with its 10 s timer. -/
def gwSendConnect (uuid instId : String) (nonce : JVal) (s : GwState) :
    GwState × List Effect :=
  let id := GwId.uuid uuid
  let params : JVal := .obj
    [("minProtocol", .num 3),
     ("maxProtocol", .num 3),
     ("client", .obj
       [("id", .str "gateway-client"),
        ("displayName", .str "Mission Control"),
        ("version", .str "1.0.0"),
        ("platform", .str "linux"),
        ("mode", .str "backend"),
        ("instanceId", .str instId)]),
     ("caps", .arr []),
     ("auth", .obj [("token", .str "TOKEN")]),
     ("role", .str "operator"),
     ("scopes", .arr [.str "operator.admin", .str "operator.approvals",
                      .str "operator.pairing"]),
     ("userAgent", .str "MissionControl/1.0"),
     ("nonce", nonce)]
  let frame : JVal := .obj
    [("type", .str "req"), ("id", .tok id), ("method", .str "connect"),
     ("params", params)]
  ({ s with
      gwPending := pset s.gwPending id
        (mkEntry PKind.connectAuth gwConnectTimeout) },
   [Effect.sendFrame frame, Effect.log "sent connect auth"])

/-- The connect-auth entry's `resolve` handler: set `gwReady`, seed
`gwSnapshot` with `payload?.snapshot || payload`, log. -/
def connectAuthResolve (payload : JVal) (s : GwState) : GwState :=
  { s with gwReady := true
           gwSnapshot := some (jsOr (getField payload "snapshot") payload) }

/-- The rejection reason of a failed RPC response:
`msg.error?.message || 'RPC error'` (a missing or empty message falls back
to the generic reason; the protocol only ever carries string messages). -/
def errReason (msg : JVal) : String :=
  match getFieldOpt (getField msg "error") "message" with
  | some (.str m) => if m = "" then "RPC error" else m
  | _ => "RPC error"

/-- The `message` handler of the socket, after `JSON.parse` (`raw = none`
models a parse failure, dropped silently).  `now` is `Date.now()`; `uuid`
and `instId` are the UUIDs `gwSendConnect` would draw if the message turns
out to be a challenge. -/
def handleMessage (now : Int) (uuid instId : String) (s : GwState)
    (raw : Option JVal) : GwState × List Effect :=
  match raw with
  | none => (s, [])
  | some msg =>
    if oStrEq (getField msg "type") "event" &&
       oStrEq (getField msg "event") "connect.challenge" then
      -- challenge → send connect (or close on a missing nonce)
      let nonce := getFieldOpt (getField msg "payload") "nonce"
      if otruthy nonce then
        gwSendConnect uuid instId (nonce.getD .null) s
      else
        ({ s with gwSocket := some SockSt.closing },
         [Effect.closeSock 1008 "no nonce"])
    else if oStrEq (getField msg "type") "event" then
      -- event: merge health payloads into the snapshot, then buffer
      let s1 :=
        if oStrEq (getField msg "event") "health" &&
           otruthy (getField msg "payload") then
          { s with gwSnapshot := some (.obj (setField
              ((s.gwSnapshot.getD .null).fields) "health"
              ((getField msg "payload").getD .null))) }
        else s
      let record : JVal := .obj (spreadFields [("time", .num now)] msg.fields)
      let evs := s1.gwEvents ++ [record]
      ({ s1 with gwEvents :=
          if evs.length > gwEventsCap then evs.drop 1 else evs }, [])
    else if oStrEq (getField msg "type") "res" &&
            otruthy (getField msg "id") then
      -- RPC response: match by id
      match getField msg "id" with
      | some (.tok i) =>
        match pget s.gwPending i with
        | some e =>
          let s1 := { s with gwPending := pdel s.gwPending i }
          if ! oIsFalse (getField msg "ok") then
            let v := jsOr (getField msg "payload")
                          (jsOr (getField msg "result") msg)
            match e.kind with
            | .rpc _ =>
                (s1, [Effect.cancelTimer i,
                      Effect.settle i SettlePath.response (Outcome.ok v)])
            | .connectAuth =>
                (connectAuthResolve v s1,
                 [Effect.cancelTimer i,
                  Effect.settle i SettlePath.response (Outcome.ok v),
                  Effect.log "auth accepted"])
          else
            let reason := errReason msg
            match e.kind with
            | .rpc _ =>
                (s1, [Effect.cancelTimer i,
                      Effect.settle i SettlePath.response
                        (Outcome.fail reason)])
            | .connectAuth =>
                (s1, [Effect.cancelTimer i,
                      Effect.settle i SettlePath.response
                        (Outcome.fail reason),
                      Effect.log "auth rejected"])
        | none => (s, [])
      | _ => (s, [])
    else
      (s, [])

/-- The `for (const [id, p] of gwPending)` loop of the close handler:
`clearTimeout(p.timer); p.reject(new Error('connection lost'))` for every
entry, in map order. -/
def rejectAllEffects : List (GwId × PendingEntry) → List Effect
  | [] => []
  | p :: m =>
      Effect.cancelTimer p.1 ::
      Effect.settle p.1 SettlePath.disconnect (Outcome.fail "connection lost")
      :: rejectAllEffects m

/-- The `close` handler of the socket: drop readiness and the socket
reference, reject every pending entry with `connection lost` (cancelling its
timer), clear the map, and arm the reconnect timer unless already armed. -/
def handleClose (s : GwState) : GwState × List Effect :=
  let rejects := rejectAllEffects s.gwPending
  let s1 := { s with gwReady := false, gwSocket := none, gwPending := [] }
  match s.gwReconnectTimer with
  | some _ => (s1, rejects)
  | none =>
      ({ s1 with gwReconnectTimer := some gwReconnectDelay },
       rejects ++ [Effect.armReconnect gwReconnectDelay])

/-- Expiry of a pending entry's deadline timer.  Enabled only while the
entry is live (the timer is cancelled exactly when the entry is removed by
another path).  An RPC entry rejects its caller with `RPC timeout: method`;
the connect-auth entry's timer only deletes the entry and logs. -/
def timerFireStep (s : GwState) (i : GwId) : GwState × List Effect :=
  match pget s.gwPending i with
  | some e =>
    let s1 := { s with gwPending := pdel s.gwPending i }
    match e.kind with
    | .rpc method =>
        (s1, [Effect.settle i SettlePath.timeout
                (Outcome.fail ("RPC timeout: " ++ method))])
    | .connectAuth => (s1, [Effect.log "connect timed out"])
  | none => (s, [])

/-- Expiry of the reconnect timer: clear the armed flag first, then invoke
`gwConnect` on the resulting state. -/
def reconnectFireStep (s : GwState) : GwState × List Effect :=
  match s.gwReconnectTimer with
  | some _ => gwConnectStep { s with gwReconnectTimer := none }
  | none => (s, [])

/-- The function `gwCall(method, args, timeoutMs)`: reject immediately when no socket or
not ready; otherwise draw the fresh id `rpc-${++gwReqId}`, arm the deadline
timer, register the entry and send the request frame. -/
def gwCallStep (s : GwState) (method : String) (args : JVal)
    (timeoutMs : Nat) : GwState × List Effect :=
  if s.gwSocket = none ∨ s.gwReady = false then
    (s, [Effect.immediateReject "not connected to gateway"])
  else
    let n := s.gwReqId + 1
    let i := GwId.rpc n
    let frame : JVal := .obj
      [("type", .str "req"), ("method", .str method), ("id", .tok i),
       ("params", jsOr (some args) (.obj []))]
    ({ s with gwReqId := n,
              gwPending := pset s.gwPending i
                (mkEntry (PKind.rpc method) timeoutMs) },
     [Effect.sendFrame frame])

/-- The actions the environment can drive the client with. -/
inductive GwAction where
  | connect
  | sockOpen
  | message (now : Int) (uuid instId : String) (raw : Option JVal)
  | closeEvt
  | timerFire (i : GwId)
  | reconnectFire
  | call (method : String) (args : JVal) (timeoutMs : Nat)

/-- One step of the client. -/
def step (s : GwState) : GwAction → GwState × List Effect
  | .connect => gwConnectStep s
  | .sockOpen => sockOpenStep s
  | .message now uuid instId raw => handleMessage now uuid instId s raw
  | .closeEvt => handleClose s
  | .timerFire i => timerFireStep s i
  | .reconnectFire => reconnectFireStep s
  | .call method args timeoutMs => gwCallStep s method args timeoutMs

/-- Run a list of actions, accumulating effects. -/
def run (s : GwState) : List GwAction → GwState × List Effect
  | [] => (s, [])
  | a :: as =>
      let (s1, effs) := step s a
      let (s2, effs') := run s1 as
      (s2, effs ++ effs')

/-- Is this effect a settlement of the entry with id `i`? -/
def isSettleOf (i : GwId) : Effect → Bool
  | .settle j _ _ => j = i
  | _ => false

/-- Number of settlements of the entry with id `i` in an effect list. -/
def settleCountF (effs : List Effect) (i : GwId) : Nat :=
  effs.countP (isSettleOf i)

/-- Every `rpc` key in the map is bounded by the current request counter. -/
def rpcBoundB (r : Nat) : GwId → Bool
  | .rpc n => n ≤ r
  | .uuid _ => true

/-- State invariant maintained by every step: the pending map's keys are
distinct (it is a `Map`), and every `rpc-${n}` key satisfies
`n ≤ gwReqId` (ids are drawn from the strictly increasing counter). -/
def StateInv (s : GwState) : Prop :=
  (s.gwPending.map (·.1)).Nodup ∧
  ∀ p ∈ s.gwPending, rpcBoundB s.gwReqId p.1 = true

theorem pget_pset_self (m : List (GwId × PendingEntry)) (i : GwId)
    (e : PendingEntry) : pget (pset m i e) i = some e := by
  induction m with
  | nil => simp [pset, pget]
  | cons p m ih =>
      by_cases h : p.1 = i <;> simp [pset, pget, h, ih]

theorem pget_pset_ne (m : List (GwId × PendingEntry)) (i j : GwId)
    (e : PendingEntry) (h : j ≠ i) : pget (pset m i e) j = pget m j := by
  have hij : i ≠ j := h.symm
  induction m with
  | nil => simp [pset, pget, hij]
  | cons p m ih =>
      by_cases hp : p.1 = i
      · simp [pset, pget, hp, hij]
      · by_cases hq : p.1 = j <;> simp [pset, pget, hp, hq, ih, h]

theorem pget_pdel_self (m : List (GwId × PendingEntry)) (i : GwId) :
    pget (pdel m i) i = none := by
  induction m with
  | nil => simp [pdel, pget]
  | cons p m ih =>
      by_cases h : p.1 = i <;> simp [pdel, pget, h, ih]

theorem pget_pdel_ne (m : List (GwId × PendingEntry)) (i j : GwId)
    (h : j ≠ i) : pget (pdel m i) j = pget m j := by
  have hij : i ≠ j := h.symm
  induction m with
  | nil => simp [pdel]
  | cons p m ih =>
      by_cases hp : p.1 = i
      · simp [pdel, pget, hp, hij, ih]
      · by_cases hq : p.1 = j <;> simp [pdel, pget, hp, hq, ih, h]

theorem keys_pset_nodup (m : List (GwId × PendingEntry)) (i : GwId)
    (e : PendingEntry) (h : (m.map (·.1)).Nodup) :
    ((pset m i e).map (·.1)).Nodup := by
  induction m with
  | nil => simp [pset]
  | cons p m ih =>
      by_cases hp : p.1 = i
      · simpa [pset, hp] using h
      · simp only [List.map_cons, List.nodup_cons] at h
        simp only [pset, if_neg hp, List.map_cons]
        refine List.nodup_cons.mpr ⟨?_, ih h.2⟩
        intro hmem
        -- p.1 occurs among the keys of `pset m i e`, so it is `i` or an old key
        have : p.1 = i ∨ p.1 ∈ m.map (·.1) := by
          clear ih h
          induction m with
          | nil => simpa [pset] using hmem
          | cons q m ih2 =>
              by_cases hq : q.1 = i
              · simp only [pset, hq, if_pos rfl, List.map_cons] at hmem
                rcases List.mem_cons.mp hmem with h1 | h1
                · exact Or.inl h1
                · exact Or.inr (List.mem_cons.mpr (Or.inr h1))
              · simp only [pset, hq, if_neg hq, List.map_cons] at hmem
                rcases List.mem_cons.mp hmem with h1 | h1
                · exact Or.inr (List.mem_cons.mpr (Or.inl h1))
                · rcases ih2 h1 with h2 | h2
                  · exact Or.inl h2
                  · exact Or.inr (List.mem_cons.mpr (Or.inr h2))
        rcases this with h1 | h1
        · exact hp h1
        · exact h.1 h1

theorem mem_pset (m : List (GwId × PendingEntry)) (i : GwId)
    (e : PendingEntry) (q : GwId × PendingEntry) (hq : q ∈ pset m i e) :
    q = (i, e) ∨ q ∈ m := by
  induction m with
  | nil => simpa [pset] using hq
  | cons p m ih =>
      by_cases hp : p.1 = i
      · simp only [pset, hp, if_pos rfl] at hq
        rcases List.mem_cons.mp hq with h1 | h1
        · exact Or.inl h1
        · exact Or.inr (List.mem_cons.mpr (Or.inr h1))
      · simp only [pset, hp, if_neg hp] at hq
        rcases List.mem_cons.mp hq with h1 | h1
        · exact Or.inr (List.mem_cons.mpr (Or.inl h1))
        · rcases ih h1 with h2 | h2
          · exact Or.inl h2
          · exact Or.inr (List.mem_cons.mpr (Or.inr h2))

theorem mem_pdel (m : List (GwId × PendingEntry)) (i : GwId)
    (q : GwId × PendingEntry) (hq : q ∈ pdel m i) : q ∈ m := by
  induction m with
  | nil => simp [pdel] at hq
  | cons p m ih =>
      by_cases hp : p.1 = i
      · simp only [pdel, hp, if_pos rfl] at hq
        exact List.mem_cons.mpr (Or.inr (ih hq))
      · simp only [pdel, hp, if_neg hp] at hq
        rcases List.mem_cons.mp hq with h1 | h1
        · exact List.mem_cons.mpr (Or.inl h1)
        · exact List.mem_cons.mpr (Or.inr (ih h1))

theorem keys_pdel_sublist (m : List (GwId × PendingEntry)) (i : GwId) :
    ((pdel m i).map (·.1)).Sublist (m.map (·.1)) := by
  induction m with
  | nil => simp [pdel]
  | cons p m ih =>
      by_cases hp : p.1 = i
      · simpa [pdel, hp] using ih.trans (List.sublist_cons_self _ _)
      · simpa [pdel, hp] using ih.cons₂ p.1

theorem keys_pdel_nodup (m : List (GwId × PendingEntry)) (i : GwId)
    (h : (m.map (·.1)).Nodup) : ((pdel m i).map (·.1)).Nodup :=
  (keys_pdel_sublist m i).nodup h

/-- Is this effect a settlement at all? -/
def isSettleAny : Effect → Bool
  | .settle _ _ _ => true
  | _ => false

theorem isSettleOf_le_any (i : GwId) (e : Effect)
    (h : isSettleOf i e = true) : isSettleAny e = true := by
  cases e <;> simp [isSettleOf, isSettleAny] at *

theorem settleCountF_nil (i : GwId) : settleCountF [] i = 0 := rfl

theorem settleCountF_append (l₁ l₂ : List Effect) (i : GwId) :
    settleCountF (l₁ ++ l₂) i = settleCountF l₁ i + settleCountF l₂ i := by
  simp [settleCountF, List.countP_append]

theorem settleCountF_eq_zero_of_noSettle (l : List Effect) (i : GwId)
    (h : ∀ e ∈ l, isSettleAny e = false) : settleCountF l i = 0 := by
  simp only [settleCountF]
  rw [List.countP_eq_zero]
  intro e he hsets
  have := isSettleOf_le_any i e hsets
  rw [h e he] at this
  exact Bool.false_ne_true this

theorem noSettle_of_settleCountF_eq_zero (l : List Effect) (i : GwId)
    (h : settleCountF l i = 0) :
    ∀ p o, Effect.settle i p o ∈ l → False := by
  intro p o hmem
  simp only [settleCountF] at h
  rw [List.countP_eq_zero] at h
  have := h _ hmem
  simp [isSettleOf] at this

theorem pget_none_iff (m : List (GwId × PendingEntry)) (i : GwId) :
    pget m i = none ↔ ∀ p ∈ m, p.1 ≠ i := by
  induction m with
  | nil => simp [pget]
  | cons p m ih =>
      by_cases hp : p.1 = i <;> simp [pget, hp, ih]

/-- In the close handler's loop, the entry with key `i` produces exactly as
many settlements as it has occurrences in the map. -/
theorem settleCountF_rejectAll (m : List (GwId × PendingEntry)) (i : GwId) :
    settleCountF (rejectAllEffects m) i = (m.map (·.1)).count i := by
  induction m with
  | nil => simp [rejectAllEffects, settleCountF]
  | cons p m ih =>
      have ih' : List.countP (isSettleOf i) (rejectAllEffects m) =
          List.count i (m.map (·.1)) := ih
      simp only [rejectAllEffects, settleCountF, List.countP_cons,
                 List.map_cons, List.count_cons]
      by_cases hp : p.1 = i <;> simp [isSettleOf, hp, ih']

theorem count_keys_eq_one (m : List (GwId × PendingEntry)) (i : GwId)
    (hnd : (m.map (·.1)).Nodup) (e : PendingEntry)
    (hp : pget m i = some e) : (m.map (·.1)).count i = 1 := by
  induction m with
  | nil => simp [pget] at hp
  | cons p m ih =>
      simp only [List.map_cons, List.nodup_cons] at hnd
      by_cases hpi : p.1 = i
      · have hni : i ∉ m.map (·.1) := hpi ▸ hnd.1
        have : (m.map (·.1)).count i = 0 := List.count_eq_zero.mpr hni
        simp [List.count_cons, hpi, this]
      · simp only [pget, if_neg hpi] at hp
        have := ih hnd.2 hp
        simp [List.count_cons, hpi, this]

theorem count_keys_eq_zero (m : List (GwId × PendingEntry)) (i : GwId)
    (hp : pget m i = none) : (m.map (·.1)).count i = 0 := by
  rw [List.count_eq_zero]
  intro hmem
  rw [pget_none_iff] at hp
  rcases List.mem_map.mp hmem with ⟨p, hpm, hkey⟩
  exact hp p hpm hkey

theorem mem_rejectAll (m : List (GwId × PendingEntry)) (i : GwId)
    (p : SettlePath) (o : Outcome)
    (h : Effect.settle i p o ∈ rejectAllEffects m) :
    p = SettlePath.disconnect ∧ o = Outcome.fail "connection lost" := by
  induction m with
  | nil => simp [rejectAllEffects] at h
  | cons q m ih =>
      simp only [rejectAllEffects, List.mem_cons] at h
      rcases h with h1 | h1 | h1
      · exact absurd h1 (by simp)
      · exact ⟨(Effect.settle.injEq ..).mp h1.symm |>.2.1.symm ▸ rfl,
               by cases h1; rfl⟩
      · exact ih h1

/-- Classification of the `message` handler: it either leaves the pending
map untouched (producing no settlements), registers the connect-auth entry
(challenge path, no settlements), or removes exactly one matched entry and
settles it once via the response path. -/
theorem handleMessage_shape (now : Int) (uuid instId : String) (s : GwState)
    (raw : Option JVal) :
    ((handleMessage now uuid instId s raw).1.gwPending = s.gwPending ∧
     (handleMessage now uuid instId s raw).1.gwReqId = s.gwReqId ∧
     (∀ e ∈ (handleMessage now uuid instId s raw).2, isSettleAny e = false))
    ∨
    ((handleMessage now uuid instId s raw).1.gwPending =
        pset s.gwPending (GwId.uuid uuid)
          (mkEntry PKind.connectAuth gwConnectTimeout) ∧
     (handleMessage now uuid instId s raw).1.gwReqId = s.gwReqId ∧
     (∀ e ∈ (handleMessage now uuid instId s raw).2, isSettleAny e = false))
    ∨
    (∃ i e out rest,
      pget s.gwPending i = some e ∧
      (handleMessage now uuid instId s raw).1.gwPending =
        pdel s.gwPending i ∧
      (handleMessage now uuid instId s raw).1.gwReqId = s.gwReqId ∧
      (handleMessage now uuid instId s raw).2 =
        Effect.cancelTimer i :: Effect.settle i SettlePath.response out
          :: rest ∧
      (∀ e ∈ rest, isSettleAny e = false)) := by
  cases raw with
  | none => left; simp [handleMessage]
  | some msg =>
    by_cases hty : oStrEq (getField msg "type") "event" = true
    · by_cases hch : oStrEq (getField msg "event") "connect.challenge" = true
      · by_cases hn : otruthy (getFieldOpt (getField msg "payload") "nonce")
          = true
        · right; left
          simp [handleMessage, hty, hch, hn, gwSendConnect, isSettleAny]
        · left
          have hn' : otruthy (getFieldOpt (getField msg "payload") "nonce")
              = false := Bool.eq_false_iff.mpr hn
          simp [handleMessage, hty, hch, hn', isSettleAny]
      · left
        have hch' : oStrEq (getField msg "event") "connect.challenge"
            = false := Bool.eq_false_iff.mpr hch
        by_cases hh : (oStrEq (getField msg "event") "health" &&
                       otruthy (getField msg "payload")) = true <;>
          simp [handleMessage, hty, hch', hh]
    · have hty' : oStrEq (getField msg "type") "event" = false :=
        Bool.eq_false_iff.mpr hty
      by_cases hr : (oStrEq (getField msg "type") "res" &&
                     otruthy (getField msg "id")) = true
      · have hr1 : oStrEq (getField msg "type") "res" = true :=
          (Bool.and_eq_true _ _ ▸ hr).1
        rcases hgf : getField msg "id" with _ | v
        · left; simp [handleMessage, hty', hr, hgf]
        · cases v with
          | tok i =>
            rcases hpg : pget s.gwPending i with _ | e
            · left; simp [handleMessage, hty', hr, hgf, hpg]
            · right; right
              rcases e with ⟨k, tmo⟩
              by_cases hok : (! oIsFalse (getField msg "ok")) = true
              · cases k with
                | rpc method =>
                    refine ⟨i, mkEntry (PKind.rpc method) tmo,
                      Outcome.ok (jsOr (getField msg "payload")
                        (jsOr (getField msg "result") msg)), [], hpg, ?_⟩
                    simp [handleMessage, hty', hr1, hgf, hpg, hok, mkEntry, otruthy, JVal.truthy]
                | connectAuth =>
                    refine ⟨i, mkEntry PKind.connectAuth tmo,
                      Outcome.ok (jsOr (getField msg "payload")
                        (jsOr (getField msg "result") msg)),
                      [Effect.log "auth accepted"], hpg, ?_⟩
                    simp [handleMessage, hty', hr1, hgf, hpg, hok, mkEntry,
                          connectAuthResolve, isSettleAny, otruthy, JVal.truthy]
              · have hok' : (! oIsFalse (getField msg "ok")) = false :=
                  Bool.eq_false_iff.mpr hok
                cases k with
                | rpc method =>
                    refine ⟨i, mkEntry (PKind.rpc method) tmo,
                      Outcome.fail (errReason msg), [], hpg, ?_⟩
                    simp [handleMessage, hty', hr1, hgf, hpg, hok', mkEntry, otruthy, JVal.truthy]
                | connectAuth =>
                    refine ⟨i, mkEntry PKind.connectAuth tmo,
                      Outcome.fail (errReason msg),
                      [Effect.log "auth rejected"], hpg, ?_⟩
                    simp [handleMessage, hty', hr1, hgf, hpg, hok', mkEntry,
                          isSettleAny, otruthy, JVal.truthy]
          | null => left; simp [handleMessage, hty', hr, hgf]
          | bool b => left; simp [handleMessage, hty', hr, hgf]
          | num n => left; simp [handleMessage, hty', hr, hgf]
          | str t => left; simp [handleMessage, hty', hr, hgf]
          | arr xs => left; simp [handleMessage, hty', hr, hgf]
          | obj fs => left; simp [handleMessage, hty', hr, hgf]
      · have hr' : (oStrEq (getField msg "type") "res" &&
                    otruthy (getField msg "id")) = false :=
          Bool.eq_false_iff.mpr hr
        left; simp [handleMessage, hty', hr']

theorem rpcBoundB_mono (r r' : Nat) (i : GwId) (h : rpcBoundB r i = true)
    (hle : r ≤ r') : rpcBoundB r' i = true := by
  cases i with
  | rpc n => simp only [rpcBoundB, decide_eq_true_eq] at *; omega
  | uuid u => rfl

theorem settleCountF_cons (e : Effect) (l : List Effect) (i : GwId) :
    settleCountF (e :: l) i =
      settleCountF l i + (if isSettleOf i e then 1 else 0) := by
  simp [settleCountF, List.countP_cons]

/-- A step taken in a state where `rpc-${n0}` is not pending keeps it out of
the map and never settles it: ids are never reused, and removal is final. -/
theorem step_absent_rpc (s : GwState) (a : GwAction) (n0 : Nat)
    (hInv : StateInv s) (hle : n0 ≤ s.gwReqId)
    (hp : pget s.gwPending (GwId.rpc n0) = none) :
    StateInv (step s a).1 ∧ s.gwReqId ≤ (step s a).1.gwReqId ∧
    pget (step s a).1.gwPending (GwId.rpc n0) = none ∧
    settleCountF (step s a).2 (GwId.rpc n0) = 0 := by
  obtain ⟨hnd, hbd⟩ := hInv
  cases a with
  | connect =>
      rcases s with ⟨sock, rdy, pend, rid, evs, rt, snap⟩
      rcases sock with _ | st
      · exact ⟨⟨hnd, hbd⟩, le_refl _, hp, rfl⟩
      · by_cases h : st = SockSt.open ∨ st = SockSt.connecting <;>
          simp only [step, gwConnectStep, h, if_pos, if_neg, not_false_iff] <;>
          exact ⟨⟨hnd, hbd⟩, le_refl _, hp, rfl⟩
  | sockOpen =>
      rcases s with ⟨sock, rdy, pend, rid, evs, rt, snap⟩
      rcases sock with _ | st
      · exact ⟨⟨hnd, hbd⟩, le_refl _, hp, rfl⟩
      · cases st <;> exact ⟨⟨hnd, hbd⟩, le_refl _, hp, rfl⟩
  | reconnectFire =>
      rcases s with ⟨sock, rdy, pend, rid, evs, rt, snap⟩
      rcases rt with _ | d
      · exact ⟨⟨hnd, hbd⟩, le_refl _, hp, rfl⟩
      · simp only [step, reconnectFireStep]
        rcases sock with _ | st
        · exact ⟨⟨hnd, hbd⟩, le_refl _, hp, rfl⟩
        · by_cases h : st = SockSt.open ∨ st = SockSt.connecting <;>
            simp only [gwConnectStep, h, if_pos, if_neg, not_false_iff] <;>
            exact ⟨⟨hnd, hbd⟩, le_refl _, hp, rfl⟩
  | closeEvt =>
      simp only [step, handleClose]
      have hcnt : settleCountF (rejectAllEffects s.gwPending)
          (GwId.rpc n0) = 0 := by
        rw [settleCountF_rejectAll]
        exact count_keys_eq_zero _ _ hp
      rcases hrt : s.gwReconnectTimer with _ | d
      · refine ⟨⟨List.nodup_nil, by simp⟩, le_refl _, rfl, ?_⟩
        rw [settleCountF_append, hcnt]
        simp [settleCountF, List.countP_cons, isSettleOf]
      · exact ⟨⟨List.nodup_nil, by simp⟩, le_refl _, rfl, hcnt⟩
  | timerFire i =>
      simp only [step, timerFireStep]
      rcases hpg : pget s.gwPending i with _ | e
      · exact ⟨⟨hnd, hbd⟩, le_refl _, hp, rfl⟩
      · have hne : GwId.rpc n0 ≠ i := by
          intro h; rw [h] at hp; rw [hp] at hpg; exact Option.noConfusion hpg
        have hpd : pget (pdel s.gwPending i) (GwId.rpc n0) = none := by
          rw [pget_pdel_ne _ _ _ hne]; exact hp
        have hinv' : StateInv { s with gwPending := pdel s.gwPending i } :=
          ⟨keys_pdel_nodup _ _ hnd,
           fun p hq => hbd p (mem_pdel _ _ _ hq)⟩
        rcases e with ⟨k, tmo⟩
        cases k with
        | rpc method =>
            refine ⟨hinv', le_refl _, hpd, ?_⟩
            simp [settleCountF, List.countP_cons, isSettleOf, hne.symm]
        | connectAuth =>
            refine ⟨hinv', le_refl _, hpd, ?_⟩
            simp [settleCountF, List.countP_cons, isSettleOf]
  | call method args timeoutMs =>
      simp only [step, gwCallStep]
      by_cases h : s.gwSocket = none ∨ s.gwReady = false
      · simp only [h, if_pos]
        exact ⟨⟨hnd, hbd⟩, le_refl _, hp,
          by simp [settleCountF, List.countP_cons, isSettleOf]⟩
      · simp only [h, if_neg, not_false_iff]
        have hne : GwId.rpc n0 ≠ GwId.rpc (s.gwReqId + 1) := by
          intro hcon
          have := GwId.rpc.injEq n0 (s.gwReqId + 1) ▸ hcon
          simp only [GwId.rpc.injEq] at hcon
          omega
        refine ⟨⟨keys_pset_nodup _ _ _ hnd, ?_⟩, Nat.le_succ _, ?_, ?_⟩
        · intro p hq
          rcases mem_pset _ _ _ _ hq with heq | hmem
        -- the fresh entry is bounded by the incremented counter
          · rw [heq]; simp [rpcBoundB]
          · exact rpcBoundB_mono _ _ _ (hbd p hmem) (Nat.le_succ _)
        · rw [pget_pset_ne _ _ _ _ hne]; exact hp
        · simp [settleCountF, List.countP_cons, isSettleOf]
  | message now uuid instId raw =>
      simp only [step]
      rcases handleMessage_shape now uuid instId s raw with
        ⟨h1, h2, h3⟩ | ⟨h1, h2, h3⟩ | ⟨i, e, out, rest, hpg, h1, h2, h3, h4⟩
      · refine ⟨⟨h1 ▸ hnd, fun p hq => h2 ▸ hbd p (h1 ▸ hq)⟩,
          le_of_eq h2.symm, h1 ▸ hp,
          settleCountF_eq_zero_of_noSettle _ _ h3⟩
      · refine ⟨⟨h1 ▸ keys_pset_nodup _ _ _ hnd, ?_⟩,
          le_of_eq h2.symm, ?_, settleCountF_eq_zero_of_noSettle _ _ h3⟩
        · intro p hq
          rw [h1] at hq
          rcases mem_pset _ _ _ _ hq with heq | hmem
          · rw [heq, h2]; rfl
          · exact h2 ▸ hbd p hmem
        · rw [h1, pget_pset_ne]
          · exact hp
          · intro hcon; exact GwId.noConfusion hcon
      · have hne : GwId.rpc n0 ≠ i := by
          intro h; rw [h] at hp; rw [hp] at hpg; exact Option.noConfusion hpg
        refine ⟨⟨h1 ▸ keys_pdel_nodup _ _ hnd,
            fun p hq => h2 ▸ hbd p (mem_pdel _ _ _ (h1 ▸ hq))⟩,
          le_of_eq h2.symm, ?_, ?_⟩
        · rw [h1, pget_pdel_ne _ _ _ hne]; exact hp
        · rw [h3, settleCountF_cons, settleCountF_cons,
              settleCountF_eq_zero_of_noSettle _ _ h4]
          simp [isSettleOf, hne.symm]

/-- Every step preserves the state invariant and never decreases the
request counter. -/
theorem step_statinv (s : GwState) (a : GwAction) (hInv : StateInv s) :
    StateInv (step s a).1 ∧ s.gwReqId ≤ (step s a).1.gwReqId := by
  obtain ⟨hnd, hbd⟩ := hInv
  cases a with
  | connect =>
      rcases s with ⟨sock, rdy, pend, rid, evs, rt, snap⟩
      rcases sock with _ | st
      · exact ⟨⟨hnd, hbd⟩, le_refl _⟩
      · by_cases h : st = SockSt.open ∨ st = SockSt.connecting <;>
          simp only [step, gwConnectStep, h, if_pos, if_neg, not_false_iff] <;>
          exact ⟨⟨hnd, hbd⟩, le_refl _⟩
  | sockOpen =>
      rcases s with ⟨sock, rdy, pend, rid, evs, rt, snap⟩
      rcases sock with _ | st
      · exact ⟨⟨hnd, hbd⟩, le_refl _⟩
      · cases st <;> exact ⟨⟨hnd, hbd⟩, le_refl _⟩
  | reconnectFire =>
      rcases s with ⟨sock, rdy, pend, rid, evs, rt, snap⟩
      rcases rt with _ | d
      · exact ⟨⟨hnd, hbd⟩, le_refl _⟩
      · simp only [step, reconnectFireStep]
        rcases sock with _ | st
        · exact ⟨⟨hnd, hbd⟩, le_refl _⟩
        · by_cases h : st = SockSt.open ∨ st = SockSt.connecting <;>
            simp only [gwConnectStep, h, if_pos, if_neg, not_false_iff] <;>
            exact ⟨⟨hnd, hbd⟩, le_refl _⟩
  | closeEvt =>
      simp only [step, handleClose]
      rcases hrt : s.gwReconnectTimer with _ | d <;>
        exact ⟨⟨List.nodup_nil, by simp⟩, le_refl _⟩
  | timerFire i =>
      simp only [step, timerFireStep]
      rcases hpg : pget s.gwPending i with _ | e
      · exact ⟨⟨hnd, hbd⟩, le_refl _⟩
      · have hinv' : StateInv { s with gwPending := pdel s.gwPending i } :=
          ⟨keys_pdel_nodup _ _ hnd, fun p hq => hbd p (mem_pdel _ _ _ hq)⟩
        rcases e with ⟨k, tmo⟩
        cases k with
        | rpc method => exact ⟨hinv', le_refl _⟩
        | connectAuth => exact ⟨hinv', le_refl _⟩
  | call method args timeoutMs =>
      simp only [step, gwCallStep]
      by_cases h : s.gwSocket = none ∨ s.gwReady = false
      · simp only [h, if_pos]
        exact ⟨⟨hnd, hbd⟩, le_refl _⟩
      · simp only [h, if_neg, not_false_iff]
        refine ⟨⟨keys_pset_nodup _ _ _ hnd, ?_⟩, Nat.le_succ _⟩
        intro p hq
        rcases mem_pset _ _ _ _ hq with heq | hmem
        · rw [heq]; simp [rpcBoundB]
        · exact rpcBoundB_mono _ _ _ (hbd p hmem) (Nat.le_succ _)
  | message now uuid instId raw =>
      simp only [step]
      rcases handleMessage_shape now uuid instId s raw with
        ⟨h1, h2, _⟩ | ⟨h1, h2, _⟩ | ⟨i, e, out, rest, hpg, h1, h2, _, _⟩
      · exact ⟨⟨h1 ▸ hnd, fun p hq => h2 ▸ hbd p (h1 ▸ hq)⟩,
          le_of_eq h2.symm⟩
      · refine ⟨⟨h1 ▸ keys_pset_nodup _ _ _ hnd, ?_⟩, le_of_eq h2.symm⟩
        intro p hq
        rw [h1] at hq
        rcases mem_pset _ _ _ _ hq with heq | hmem
        · rw [heq, h2]; rfl
        · exact h2 ▸ hbd p hmem
      · exact ⟨⟨h1 ▸ keys_pdel_nodup _ _ hnd,
          fun p hq => h2 ▸ hbd p (mem_pdel _ _ _ (h1 ▸ hq))⟩,
          le_of_eq h2.symm⟩

/-- A step taken in a state where the application call `rpc-${n0}` is
pending either leaves the entry untouched and settles nothing for it, or
removes it and settles it exactly once, via the response, timeout or
disconnect path. -/
theorem step_pending_rpc (s : GwState) (a : GwAction) (n0 tmo : Nat)
    (method : String) (hInv : StateInv s) (hle : n0 ≤ s.gwReqId)
    (hp : pget s.gwPending (GwId.rpc n0) =
      some (mkEntry (PKind.rpc method) tmo)) :
    (pget (step s a).1.gwPending (GwId.rpc n0) =
        some (mkEntry (PKind.rpc method) tmo) ∧
     settleCountF (step s a).2 (GwId.rpc n0) = 0 ∧
     a ≠ GwAction.timerFire (GwId.rpc n0) ∧ a ≠ GwAction.closeEvt)
    ∨
    (pget (step s a).1.gwPending (GwId.rpc n0) = none ∧
     settleCountF (step s a).2 (GwId.rpc n0) = 1 ∧
     ∀ p o, Effect.settle (GwId.rpc n0) p o ∈ (step s a).2 →
       p = SettlePath.response ∨ p = SettlePath.timeout ∨
       p = SettlePath.disconnect) := by
  obtain ⟨hnd, hbd⟩ := hInv
  cases a with
  | connect =>
      left
      rcases s with ⟨sock, rdy, pend, rid, evs, rt, snap⟩
      rcases sock with _ | st
      · exact ⟨hp, rfl, fun h => GwAction.noConfusion h,
          fun h => GwAction.noConfusion h⟩
      · by_cases h : st = SockSt.open ∨ st = SockSt.connecting <;>
          simp only [step, gwConnectStep, h, if_pos, if_neg, not_false_iff] <;>
          exact ⟨hp, rfl, fun h => GwAction.noConfusion h,
            fun h => GwAction.noConfusion h⟩
  | sockOpen =>
      left
      rcases s with ⟨sock, rdy, pend, rid, evs, rt, snap⟩
      rcases sock with _ | st
      · exact ⟨hp, rfl, fun h => GwAction.noConfusion h,
          fun h => GwAction.noConfusion h⟩
      · cases st <;>
          exact ⟨hp, rfl, fun h => GwAction.noConfusion h,
            fun h => GwAction.noConfusion h⟩
  | reconnectFire =>
      left
      rcases s with ⟨sock, rdy, pend, rid, evs, rt, snap⟩
      rcases rt with _ | d
      · exact ⟨hp, rfl, fun h => GwAction.noConfusion h,
          fun h => GwAction.noConfusion h⟩
      · simp only [step, reconnectFireStep]
        rcases sock with _ | st
        · exact ⟨hp, rfl, fun h => GwAction.noConfusion h,
            fun h => GwAction.noConfusion h⟩
        · by_cases h : st = SockSt.open ∨ st = SockSt.connecting <;>
            simp only [gwConnectStep, h, if_pos, if_neg, not_false_iff] <;>
            exact ⟨hp, rfl, fun h => GwAction.noConfusion h,
              fun h => GwAction.noConfusion h⟩
  | closeEvt =>
      right
      simp only [step, handleClose]
      have hcnt : settleCountF (rejectAllEffects s.gwPending)
          (GwId.rpc n0) = 1 := by
        rw [settleCountF_rejectAll]
        exact count_keys_eq_one _ _ hnd _ hp
      have hmem : ∀ p o,
          Effect.settle (GwId.rpc n0) p o ∈ rejectAllEffects s.gwPending →
          p = SettlePath.response ∨ p = SettlePath.timeout ∨
          p = SettlePath.disconnect := by
        intro p o hm
        exact Or.inr (Or.inr (mem_rejectAll _ _ _ _ hm).1)
      rcases hrt : s.gwReconnectTimer with _ | d
      · refine ⟨rfl, ?_, ?_⟩
        · rw [settleCountF_append, hcnt]
          simp [settleCountF, List.countP_cons, isSettleOf]
        · intro p o hm
          rcases List.mem_append.mp hm with hm1 | hm1
          · exact hmem p o hm1
          · simp at hm1
      · exact ⟨rfl, hcnt, hmem⟩
  | timerFire i =>
      by_cases hi : i = GwId.rpc n0
      · subst hi
        right
        simp only [step, timerFireStep, hp, mkEntry]
        refine ⟨pget_pdel_self _ _, ?_, ?_⟩
        · simp [settleCountF, List.countP_cons, isSettleOf]
        · intro p o hm
          simp only [List.mem_singleton] at hm
          cases hm
          exact Or.inr (Or.inl rfl)
      · left
        simp only [step, timerFireStep]
        have hne : GwId.rpc n0 ≠ i := fun h => hi h.symm
        rcases hpg : pget s.gwPending i with _ | e
        · refine ⟨hp, rfl, ?_, fun h => GwAction.noConfusion h⟩
          intro h
          injection h with h'
          exact hi h'
        · have hpd : pget (pdel s.gwPending i) (GwId.rpc n0) =
              some (mkEntry (PKind.rpc method) tmo) := by
            rw [pget_pdel_ne _ _ _ hne]; exact hp
          rcases e with ⟨k, tmo'⟩
          cases k with
          | rpc method' =>
              refine ⟨hpd, ?_, ?_, fun h => GwAction.noConfusion h⟩
              · simp [settleCountF, List.countP_cons, isSettleOf, hne.symm]
              · intro h
                injection h with h'
                exact hi h'
          | connectAuth =>
              refine ⟨hpd, ?_, ?_, fun h => GwAction.noConfusion h⟩
              · simp [settleCountF, List.countP_cons, isSettleOf]
              · intro h
                injection h with h'
                exact hi h'
  | call method' args timeoutMs =>
      left
      simp only [step, gwCallStep]
      by_cases h : s.gwSocket = none ∨ s.gwReady = false
      · simp only [h, if_pos]
        exact ⟨hp, by simp [settleCountF, List.countP_cons, isSettleOf],
          fun h => GwAction.noConfusion h, fun h => GwAction.noConfusion h⟩
      · simp only [h, if_neg, not_false_iff]
        have hne : GwId.rpc n0 ≠ GwId.rpc (s.gwReqId + 1) := by
          simp only [ne_eq, GwId.rpc.injEq]
          omega
        refine ⟨?_, by simp [settleCountF, List.countP_cons, isSettleOf],
          fun h => GwAction.noConfusion h, fun h => GwAction.noConfusion h⟩
        rw [pget_pset_ne _ _ _ _ hne]
        exact hp
  | message now uuid instId raw =>
      simp only [step]
      rcases handleMessage_shape now uuid instId s raw with
        ⟨h1, h2, h3⟩ | ⟨h1, h2, h3⟩ | ⟨i, e, out, rest, hpg, h1, h2, h3, h4⟩
      · left
        exact ⟨h1 ▸ hp, settleCountF_eq_zero_of_noSettle _ _ h3,
          fun h => GwAction.noConfusion h, fun h => GwAction.noConfusion h⟩
      · left
        refine ⟨?_, settleCountF_eq_zero_of_noSettle _ _ h3,
          fun h => GwAction.noConfusion h, fun h => GwAction.noConfusion h⟩
        rw [h1, pget_pset_ne]
        · exact hp
        · intro hcon; exact GwId.noConfusion hcon
      · by_cases hi : i = GwId.rpc n0
        · subst hi
          right
          refine ⟨?_, ?_, ?_⟩
          · rw [h1]; exact pget_pdel_self _ _
          · rw [h3, settleCountF_cons, settleCountF_cons,
                settleCountF_eq_zero_of_noSettle _ _ h4]
            simp [isSettleOf]
          · intro p o hm
            rw [h3] at hm
            rcases List.mem_cons.mp hm with h5 | h5
            · exact absurd h5 (by simp)
            · rcases List.mem_cons.mp h5 with h6 | h6
              · cases h6
                exact Or.inl rfl
              · exfalso
                have := h4 _ h6
                simp [isSettleAny] at this
        · left
          have hne : GwId.rpc n0 ≠ i := fun h => hi h.symm
          refine ⟨?_, ?_, fun h => GwAction.noConfusion h,
            fun h => GwAction.noConfusion h⟩
          · rw [h1, pget_pdel_ne _ _ _ hne]; exact hp
          · rw [h3, settleCountF_cons, settleCountF_cons,
                settleCountF_eq_zero_of_noSettle _ _ h4]
            simp [isSettleOf, hne.symm]

theorem run_cons (s : GwState) (a : GwAction) (as : List GwAction) :
    run s (a :: as) =
      ((run (step s a).1 as).1, (step s a).2 ++ (run (step s a).1 as).2) :=
  rfl

/-- Over any trace, an id that is not pending never reappears and is never
settled. -/
theorem run_absent_rpc (s : GwState) (acts : List GwAction) (n0 : Nat)
    (hInv : StateInv s) (hle : n0 ≤ s.gwReqId)
    (hp : pget s.gwPending (GwId.rpc n0) = none) :
    pget (run s acts).1.gwPending (GwId.rpc n0) = none ∧
    settleCountF (run s acts).2 (GwId.rpc n0) = 0 := by
  induction acts generalizing s with
  | nil => exact ⟨hp, rfl⟩
  | cons a as ih =>
      obtain ⟨hInv', hle', hp', hcnt⟩ := step_absent_rpc s a n0 hInv hle hp
      obtain ⟨ihp, ihc⟩ := ih (step s a).1 hInv' (le_trans hle hle') hp'
      rw [run_cons]
      exact ⟨ihp, by rw [settleCountF_append, hcnt, ihc]⟩

/-- Over any trace from a state where the application call `rpc-${n0}` is
pending: it is settled at most once; it is settled exactly once iff it
has left the pending map; every settlement travels one of the three paths
(response, timeout, disconnect); and if the trace contains the call's own
timer expiry or a connection close, it has been settled exactly once. -/
theorem run_pending_rpc (s : GwState) (acts : List GwAction)
    (n0 tmo : Nat) (method : String)
    (hInv : StateInv s) (hle : n0 ≤ s.gwReqId)
    (hp : pget s.gwPending (GwId.rpc n0) =
      some (mkEntry (PKind.rpc method) tmo)) :
    settleCountF (run s acts).2 (GwId.rpc n0) ≤ 1 ∧
    (settleCountF (run s acts).2 (GwId.rpc n0) = 1 ↔
      pget (run s acts).1.gwPending (GwId.rpc n0) = none) ∧
    (pget (run s acts).1.gwPending (GwId.rpc n0) = none ∨
     pget (run s acts).1.gwPending (GwId.rpc n0) =
       some (mkEntry (PKind.rpc method) tmo)) ∧
    (∀ p o, Effect.settle (GwId.rpc n0) p o ∈ (run s acts).2 →
       p = SettlePath.response ∨ p = SettlePath.timeout ∨
       p = SettlePath.disconnect) ∧
    ((GwAction.timerFire (GwId.rpc n0) ∈ acts ∨ GwAction.closeEvt ∈ acts) →
      settleCountF (run s acts).2 (GwId.rpc n0) = 1) := by
  induction acts generalizing s with
  | nil =>
      refine ⟨by simp [run, settleCountF], ?_, Or.inr hp, ?_, ?_⟩
      · constructor
        · intro h; exact absurd h (by simp [run, settleCountF])
        · intro h; rw [show (run s []).1 = s from rfl] at h
          rw [hp] at h; exact Option.noConfusion h
      · intro p o hm; exact absurd hm (by simp [run])
      · intro h; simp at h
  | cons a as ih =>
      obtain ⟨hInv', hle'⟩ := step_statinv s a hInv
      rw [run_cons]
      rcases step_pending_rpc s a n0 tmo method ⟨hInv.1, hInv.2⟩ hle hp with
        ⟨hp', hcnt, hna, hnb⟩ | ⟨hp', hcnt, hpaths⟩
      · obtain ⟨ih1, ih2, ih3, ih4, ih5⟩ :=
          ih (step s a).1 hInv' (le_trans hle hle') hp'
        have hz : ∀ p o, Effect.settle (GwId.rpc n0) p o ∈ (step s a).2 →
            False := noSettle_of_settleCountF_eq_zero _ _ hcnt
        refine ⟨?_, ?_, ih3, ?_, ?_⟩
        · rw [settleCountF_append, hcnt]; simpa using ih1
        · rw [settleCountF_append, hcnt]; simpa using ih2
        · intro p o hm
          rcases List.mem_append.mp hm with hm1 | hm1
          · exact absurd hm1 (fun h => hz p o h)
          · exact ih4 p o hm1
        · intro htr
          rw [settleCountF_append, hcnt]
          simp only [Nat.zero_add]
          apply ih5
          rcases htr with htr | htr <;>
            rcases List.mem_cons.mp htr with h | h
          · exact absurd h.symm hna
          · exact Or.inl h
          · exact absurd h.symm hnb
          · exact Or.inr h
      · obtain ⟨ihp, ihc⟩ :=
          run_absent_rpc (step s a).1 as n0 hInv' (le_trans hle hle') hp'
        have hone : settleCountF ((step s a).2 ++ (run (step s a).1 as).2)
            (GwId.rpc n0) = 1 := by
          rw [settleCountF_append, hcnt, ihc]
        refine ⟨le_of_eq hone, ?_, Or.inl ihp, ?_, fun _ => hone⟩
        · exact ⟨fun _ => ihp, fun _ => hone⟩
        · intro p o hm
          rcases List.mem_append.mp hm with hm1 | hm1
          · exact hpaths p o hm1
          · exact absurd hm1
              (fun h => noSettle_of_settleCountF_eq_zero _ _ ihc p o h)

/-- A concrete authenticated state: socket open, ready, nothing pending. -/
def readyStateEx : GwState :=
  { gwSocket := some SockSt.open
    gwReady := true
    gwPending := []
    gwReqId := 0
    gwEvents := []
    gwReconnectTimer := none
    gwSnapshot := none }

/-- C1: for every `call()` issued while the connection is Ready, the
caller's promise is settled at most once over any subsequent trace; it is
settled exactly once iff its entry has left the pending map; every
settlement comes from exactly one of the three paths (matching response,
own timeout, bulk rejection on close); and once the trace contains the
call's own timer expiry or a connection close, the settlement count is
exactly one — never zero, never more. -/
theorem c1_call_settled_exactly_once (s : GwState) (method : String)
    (args : JVal) (timeoutMs : Nat) (acts : List GwAction)
    (hInv : StateInv s) (hsock : s.gwSocket ≠ none)
    (hready : s.gwReady = true) :
    settleCountF (run (step s (GwAction.call method args timeoutMs)).1
        acts).2 (GwId.rpc (s.gwReqId + 1)) ≤ 1 ∧
    (settleCountF (run (step s (GwAction.call method args timeoutMs)).1
        acts).2 (GwId.rpc (s.gwReqId + 1)) = 1 ↔
      pget (run (step s (GwAction.call method args timeoutMs)).1
        acts).1.gwPending (GwId.rpc (s.gwReqId + 1)) = none) ∧
    (∀ p o, Effect.settle (GwId.rpc (s.gwReqId + 1)) p o ∈
        (run (step s (GwAction.call method args timeoutMs)).1 acts).2 →
      p = SettlePath.response ∨ p = SettlePath.timeout ∨
      p = SettlePath.disconnect) ∧
    ((GwAction.timerFire (GwId.rpc (s.gwReqId + 1)) ∈ acts ∨
      GwAction.closeEvt ∈ acts) →
      settleCountF (run (step s (GwAction.call method args timeoutMs)).1
        acts).2 (GwId.rpc (s.gwReqId + 1)) = 1) := by
  have hcond : ¬ (s.gwSocket = none ∨ s.gwReady = false) := by
    intro h
    rcases h with h | h
    · exact hsock h
    · rw [hready] at h; exact Bool.noConfusion h
  have hs1 : (step s (GwAction.call method args timeoutMs)).1 =
      { s with gwReqId := s.gwReqId + 1,
               gwPending := pset s.gwPending (GwId.rpc (s.gwReqId + 1))
                 (mkEntry (PKind.rpc method) timeoutMs) } := by
    simp only [step, gwCallStep, hcond, if_neg, not_false_iff]
  obtain ⟨hInv', hle'⟩ :=
    step_statinv s (GwAction.call method args timeoutMs) hInv
  have hp : pget (step s (GwAction.call method args timeoutMs)).1.gwPending
      (GwId.rpc (s.gwReqId + 1)) =
      some (mkEntry (PKind.rpc method) timeoutMs) := by
    rw [hs1]
    exact pget_pset_self _ _ _
  have hle : s.gwReqId + 1 ≤
      (step s (GwAction.call method args timeoutMs)).1.gwReqId := by
    rw [hs1]
  obtain ⟨h1, h2, _, h4, h5⟩ :=
    run_pending_rpc (step s (GwAction.call method args timeoutMs)).1 acts
      (s.gwReqId + 1) timeoutMs method hInv' hle hp
  exact ⟨h1, h2, h4, h5⟩

/-- Witness for C1 at a concrete ready state, with the trace consisting of
the call's own timer expiry. -/
theorem c1_call_settled_exactly_once_witness :
    StateInv readyStateEx ∧ readyStateEx.gwSocket ≠ none ∧
    readyStateEx.gwReady = true ∧
    (settleCountF (run (step readyStateEx
        (GwAction.call "status.get" (JVal.obj []) 15000)).1
        [GwAction.timerFire (GwId.rpc 1)]).2 (GwId.rpc 1) ≤ 1 ∧
     (settleCountF (run (step readyStateEx
        (GwAction.call "status.get" (JVal.obj []) 15000)).1
        [GwAction.timerFire (GwId.rpc 1)]).2 (GwId.rpc 1) = 1 ↔
       pget (run (step readyStateEx
        (GwAction.call "status.get" (JVal.obj []) 15000)).1
        [GwAction.timerFire (GwId.rpc 1)]).1.gwPending (GwId.rpc 1) =
         none) ∧
     (∀ p o, Effect.settle (GwId.rpc 1) p o ∈
        (run (step readyStateEx
          (GwAction.call "status.get" (JVal.obj []) 15000)).1
          [GwAction.timerFire (GwId.rpc 1)]).2 →
       p = SettlePath.response ∨ p = SettlePath.timeout ∨
       p = SettlePath.disconnect) ∧
     ((GwAction.timerFire (GwId.rpc 1) ∈ [GwAction.timerFire (GwId.rpc 1)] ∨
       GwAction.closeEvt ∈ [GwAction.timerFire (GwId.rpc 1)]) →
       settleCountF (run (step readyStateEx
        (GwAction.call "status.get" (JVal.obj []) 15000)).1
        [GwAction.timerFire (GwId.rpc 1)]).2 (GwId.rpc 1) = 1)) :=
  ⟨⟨by decide, by intro p h; exact absurd h (by simp [readyStateEx])⟩,
   by simp [readyStateEx],
   rfl,
   c1_call_settled_exactly_once readyStateEx "status.get" (JVal.obj [])
     15000 [GwAction.timerFire (GwId.rpc 1)]
     ⟨by decide, by intro p h; exact absurd h (by simp [readyStateEx])⟩
     (by simp [readyStateEx]) rfl⟩

theorem mem_rejectAll_of_mem (m : List (GwId × PendingEntry))
    (q : GwId × PendingEntry) (hq : q ∈ m) :
    Effect.cancelTimer q.1 ∈ rejectAllEffects m ∧
    Effect.settle q.1 SettlePath.disconnect (Outcome.fail "connection lost")
      ∈ rejectAllEffects m := by
  induction m with
  | nil => simp at hq
  | cons p m ih =>
      rcases List.mem_cons.mp hq with h | h
      · subst h
        exact ⟨List.mem_cons_self _ _,
          List.mem_cons.mpr (Or.inr (List.mem_cons_self _ _))⟩
      · obtain ⟨h1, h2⟩ := ih h
        exact ⟨List.mem_cons.mpr (Or.inr (List.mem_cons.mpr (Or.inr h1))),
          List.mem_cons.mpr (Or.inr (List.mem_cons.mpr (Or.inr h2)))⟩

/-- C2: the close handler empties the pending map, and every entry that was
present has its deadline timer cancelled and its failure callback invoked
with reason "connection lost", regardless of its individual deadline. -/
theorem c2_close_drains_pending (s : GwState) :
    (handleClose s).1.gwPending = [] ∧
    ∀ q ∈ s.gwPending,
      Effect.cancelTimer q.1 ∈ (handleClose s).2 ∧
      Effect.settle q.1 SettlePath.disconnect (Outcome.fail "connection lost")
        ∈ (handleClose s).2 := by
  rcases hrt : s.gwReconnectTimer with _ | d
  · refine ⟨by simp [handleClose, hrt], ?_⟩
    intro q hq
    obtain ⟨h1, h2⟩ := mem_rejectAll_of_mem s.gwPending q hq
    simp only [handleClose, hrt]
    exact ⟨List.mem_append_left _ h1, List.mem_append_left _ h2⟩
  · refine ⟨by simp [handleClose, hrt], ?_⟩
    intro q hq
    obtain ⟨h1, h2⟩ := mem_rejectAll_of_mem s.gwPending q hq
    simp only [handleClose, hrt]
    exact ⟨h1, h2⟩

/-- A concrete state with two pending calls and an armed deadline each. -/
def twoPendingEx : GwState :=
  { gwSocket := some SockSt.open
    gwReady := true
    gwPending := [(GwId.rpc 1, mkEntry (PKind.rpc "a") 15000),
                  (GwId.rpc 2, mkEntry (PKind.rpc "b") 15000)]
    gwReqId := 2
    gwEvents := []
    gwReconnectTimer := none
    gwSnapshot := none }

/-- Witness for C2 at a concrete state with two pending calls. -/
theorem c2_close_drains_pending_witness :
    (handleClose twoPendingEx).1.gwPending = [] ∧
    (Effect.cancelTimer (GwId.rpc 1) ∈ (handleClose twoPendingEx).2 ∧
     Effect.settle (GwId.rpc 1) SettlePath.disconnect
       (Outcome.fail "connection lost") ∈ (handleClose twoPendingEx).2) :=
  ⟨(c2_close_drains_pending twoPendingEx).1,
   (c2_close_drains_pending twoPendingEx).2
     (GwId.rpc 1, mkEntry (PKind.rpc "a") 15000)
     (by simp [twoPendingEx])⟩

/-- C3: a `call()` issued while not ready rejects immediately with the
"not connected to gateway" reason and leaves the whole state — the pending
map included — unchanged. -/
theorem c3_call_not_ready (s : GwState) (method : String) (args : JVal)
    (timeoutMs : Nat) (h : s.gwReady = false) :
    gwCallStep s method args timeoutMs =
      (s, [Effect.immediateReject "not connected to gateway"]) := by
  simp [gwCallStep, h]

/-- Witness for C3 at the initial (disconnected) state. -/
theorem c3_call_not_ready_witness :
    initialGwState.gwReady = false ∧
    gwCallStep initialGwState "status.get" (JVal.obj []) 15000 =
      (initialGwState, [Effect.immediateReject "not connected to gateway"]) :=
  ⟨rfl, c3_call_not_ready initialGwState "status.get" (JVal.obj []) 15000 rfl⟩

theorem oStrEq_eq (v : Option JVal) (s : String) (h : oStrEq v s = true) :
    v = some (JVal.str s) := by
  match v with
  | none => simp [oStrEq] at h
  | some .null => simp [oStrEq] at h
  | some (.bool b) => simp [oStrEq] at h
  | some (.num n) => simp [oStrEq] at h
  | some (.tok t) => simp [oStrEq] at h
  | some (.arr xs) => simp [oStrEq] at h
  | some (.obj fs) => simp [oStrEq] at h
  | some (.str t) =>
      simp only [oStrEq, beq_iff_eq] at h
      rw [h]

/-- C4: when a pending call's deadline timer fires, the entry is removed
from the map and the caller rejected with a timeout reason naming the
call's method; afterwards any response carrying that id finds no entry and
is discarded without touching the state or producing any effect. -/
theorem c4_timeout_then_late_response_discarded
    (s : GwState) (n0 tmo : Nat) (method : String)
    (hp : pget s.gwPending (GwId.rpc n0) =
      some (mkEntry (PKind.rpc method) tmo)) :
    timerFireStep s (GwId.rpc n0) =
      ({ s with gwPending := pdel s.gwPending (GwId.rpc n0) },
       [Effect.settle (GwId.rpc n0) SettlePath.timeout
          (Outcome.fail ("RPC timeout: " ++ method))]) ∧
    pget (timerFireStep s (GwId.rpc n0)).1.gwPending (GwId.rpc n0) = none ∧
    (∀ (s' : GwState) (now : Int) (uuid instId : String) (msg : JVal),
      pget s'.gwPending (GwId.rpc n0) = none →
      oStrEq (getField msg "type") "res" = true →
      getField msg "id" = some (JVal.tok (GwId.rpc n0)) →
      handleMessage now uuid instId s' (some msg) = (s', [])) := by
  have h1 : timerFireStep s (GwId.rpc n0) =
      ({ s with gwPending := pdel s.gwPending (GwId.rpc n0) },
       [Effect.settle (GwId.rpc n0) SettlePath.timeout
          (Outcome.fail ("RPC timeout: " ++ method))]) := by
    simp [timerFireStep, hp, mkEntry]
  refine ⟨h1, ?_, ?_⟩
  · rw [h1]
    exact pget_pdel_self _ _
  · intro s' now uuid instId msg hnone hres hid
    have htype := oStrEq_eq _ _ hres
    simp [handleMessage, htype, hid, hnone, oStrEq, otruthy, JVal.truthy]

/-- Witness for C4: a pending `status.get` call with a 15 s deadline times
out, the reason names the method, and a late response for its id is then a
no-op. -/
theorem c4_timeout_then_late_response_discarded_witness :
    pget twoPendingEx.gwPending (GwId.rpc 1) =
      some (mkEntry (PKind.rpc "a") 15000) ∧
    (timerFireStep twoPendingEx (GwId.rpc 1)).1.gwPending =
      [(GwId.rpc 2, mkEntry (PKind.rpc "b") 15000)] ∧
    handleMessage 0 "u" "v" (timerFireStep twoPendingEx (GwId.rpc 1)).1
      (some (JVal.obj [("type", JVal.str "res"),
                       ("id", JVal.tok (GwId.rpc 1))])) =
      ((timerFireStep twoPendingEx (GwId.rpc 1)).1, []) := by
  have h := c4_timeout_then_late_response_discarded twoPendingEx 1 15000 "a"
    (by decide)
  refine ⟨by decide, by rw [h.1]; rfl, ?_⟩
  exact h.2.2 (timerFireStep twoPendingEx (GwId.rpc 1)).1 0 "u" "v"
    (JVal.obj [("type", JVal.str "res"), ("id", JVal.tok (GwId.rpc 1))])
    (h.2.1) (by decide) rfl

/-- C5: an inbound response is matched to a pending call solely by its id:
the matched entry is removed (its timer cancelled) and settled exactly
according to the `ok` field — success unless `ok === false`, else failure
with the carried error message or the generic "RPC error" — while every
other pending entry is untouched, whatever the send order was. -/
theorem c5_response_matched_by_id (s : GwState) (i : GwId) (tmo : Nat)
    (method : String) (now : Int) (uuid instId : String) (msg : JVal)
    (hp : pget s.gwPending i = some (mkEntry (PKind.rpc method) tmo))
    (hres : oStrEq (getField msg "type") "res" = true)
    (hid : getField msg "id" = some (JVal.tok i)) :
    (handleMessage now uuid instId s (some msg)).1.gwPending =
      pdel s.gwPending i ∧
    pget (handleMessage now uuid instId s (some msg)).1.gwPending i = none ∧
    (∀ j, j ≠ i →
      pget (handleMessage now uuid instId s (some msg)).1.gwPending j =
        pget s.gwPending j) ∧
    (handleMessage now uuid instId s (some msg)).2 =
      [Effect.cancelTimer i,
       Effect.settle i SettlePath.response
         (if oIsFalse (getField msg "ok") = true
          then Outcome.fail (errReason msg)
          else Outcome.ok (jsOr (getField msg "payload")
            (jsOr (getField msg "result") msg)))] ∧
    (getField msg "error" = none → errReason msg = "RPC error") ∧
    (∀ em, getFieldOpt (getField msg "error") "message" =
        some (JVal.str em) → ¬ em = "" → errReason msg = em) := by
  have htype := oStrEq_eq _ _ hres
  have hmain : handleMessage now uuid instId s (some msg) =
      ({ s with gwPending := pdel s.gwPending i },
       [Effect.cancelTimer i,
        Effect.settle i SettlePath.response
          (if oIsFalse (getField msg "ok") = true
           then Outcome.fail (errReason msg)
           else Outcome.ok (jsOr (getField msg "payload")
             (jsOr (getField msg "result") msg)))]) := by
    by_cases hok : oIsFalse (getField msg "ok") = true
    · simp [handleMessage, htype, hid, hp, mkEntry, hok, oStrEq, otruthy,
            JVal.truthy]
    · have hok' : oIsFalse (getField msg "ok") = false :=
        Bool.eq_false_iff.mpr hok
      simp [handleMessage, htype, hid, hp, mkEntry, hok', oStrEq, otruthy,
            JVal.truthy]
  refine ⟨by rw [hmain], by rw [hmain]; exact pget_pdel_self _ _, ?_,
    by rw [hmain], ?_, ?_⟩
  · intro j hj
    rw [hmain]
    exact pget_pdel_ne _ _ _ hj
  · intro h
    simp [errReason, getFieldOpt, h]
  · intro em h hne
    simp [errReason, h, hne]

/-- Witness for C5, realising the spec's scenario: calls "a" (`rpc-1`) and
"b" (`rpc-2`) are both outstanding; the response for `rpc-2` arrives first,
settles "b" successfully, and leaves "a" pending. -/
theorem c5_response_matched_by_id_witness :
    pget twoPendingEx.gwPending (GwId.rpc 2) =
      some (mkEntry (PKind.rpc "b") 15000) ∧
    pget (handleMessage 0 "u" "v" twoPendingEx
        (some (JVal.obj [("type", JVal.str "res"),
                         ("id", JVal.tok (GwId.rpc 2))]))).1.gwPending
      (GwId.rpc 2) = none ∧
    pget (handleMessage 0 "u" "v" twoPendingEx
        (some (JVal.obj [("type", JVal.str "res"),
                         ("id", JVal.tok (GwId.rpc 2))]))).1.gwPending
      (GwId.rpc 1) = some (mkEntry (PKind.rpc "a") 15000) := by
  have h := c5_response_matched_by_id twoPendingEx (GwId.rpc 2) 15000 "b"
    0 "u" "v"
    (JVal.obj [("type", JVal.str "res"), ("id", JVal.tok (GwId.rpc 2))])
    (by decide) (by decide) rfl
  refine ⟨by decide, h.2.1, ?_⟩
  rw [h.2.2.1 (GwId.rpc 1) (by decide)]
  decide

/-- C7: processing any inbound message leaves the event buffer within its
capacity of 50, and an event appended to a full buffer evicts exactly the
oldest entry, keeping the remaining 50 in arrival order. -/
theorem c7_event_buffer_bounded (now : Int) (uuid instId : String)
    (s : GwState) (raw : Option JVal) (hlen : s.gwEvents.length ≤ 50) :
    (handleMessage now uuid instId s raw).1.gwEvents.length ≤ 50 ∧
    (∀ msg, raw = some msg →
      oStrEq (getField msg "type") "event" = true →
      oStrEq (getField msg "event") "connect.challenge" = false →
      s.gwEvents.length < 50 →
      (handleMessage now uuid instId s raw).1.gwEvents =
        s.gwEvents ++
          [JVal.obj (spreadFields [("time", JVal.num now)] msg.fields)]) ∧
    (∀ msg, raw = some msg →
      oStrEq (getField msg "type") "event" = true →
      oStrEq (getField msg "event") "connect.challenge" = false →
      s.gwEvents.length = 50 →
      (handleMessage now uuid instId s raw).1.gwEvents =
        s.gwEvents.drop 1 ++
          [JVal.obj (spreadFields [("time", JVal.num now)] msg.fields)]) := by
  refine ⟨?_, ?_, ?_⟩
  · cases raw with
    | none => exact hlen
    | some msg =>
      by_cases hty : oStrEq (getField msg "type") "event" = true
      · by_cases hch : oStrEq (getField msg "event") "connect.challenge"
          = true
        · by_cases hn : otruthy (getFieldOpt (getField msg "payload")
            "nonce") = true
          · simpa [handleMessage, hty, hch, hn, gwSendConnect] using hlen
          · have hn' := Bool.eq_false_iff.mpr hn
            simpa [handleMessage, hty, hch, hn'] using hlen
        · have hch' := Bool.eq_false_iff.mpr hch
          by_cases hh : (oStrEq (getField msg "event") "health" &&
              otruthy (getField msg "payload")) = true <;>
          · by_cases hgt : 50 < s.gwEvents.length + 1 <;>
              simp [handleMessage, hty, hch', hh, gwEventsCap, hgt] <;>
              omega
      · have hty' := Bool.eq_false_iff.mpr hty
        by_cases hr : (oStrEq (getField msg "type") "res" &&
            otruthy (getField msg "id")) = true
        · have hr1 : oStrEq (getField msg "type") "res" = true :=
            (Bool.and_eq_true _ _ ▸ hr).1
          rcases hgf : getField msg "id" with _ | v
          · simpa [handleMessage, hty', hr1, hgf] using hlen
          · cases v with
            | tok i =>
              rcases hpg : pget s.gwPending i with _ | e
              · simpa [handleMessage, hty', hr1, hgf, hpg, otruthy,
                  JVal.truthy] using hlen
              · rcases e with ⟨k, tmo⟩
                by_cases hok : (! oIsFalse (getField msg "ok")) = true
                · cases k <;>
                    simpa [handleMessage, hty', hr1, hgf, hpg, hok,
                      connectAuthResolve, otruthy, JVal.truthy] using hlen
                · have hok' := Bool.eq_false_iff.mpr hok
                  cases k <;>
                    simpa [handleMessage, hty', hr1, hgf, hpg, hok',
                      otruthy, JVal.truthy] using hlen
            | null => simpa [handleMessage, hty', hr1, hgf] using hlen
            | bool b => simpa [handleMessage, hty', hr1, hgf] using hlen
            | num n => simpa [handleMessage, hty', hr1, hgf] using hlen
            | str t => simpa [handleMessage, hty', hr1, hgf] using hlen
            | arr xs => simpa [handleMessage, hty', hr1, hgf] using hlen
            | obj fs => simpa [handleMessage, hty', hr1, hgf] using hlen
        · have hr' := Bool.eq_false_iff.mpr hr
          simpa [handleMessage, hty', hr'] using hlen
  · rintro msg rfl hty hch' hlt
    have hgt : ¬ (50 < s.gwEvents.length + 1) := by omega
    by_cases hh : (oStrEq (getField msg "event") "health" &&
        otruthy (getField msg "payload")) = true <;>
      simp [handleMessage, hty, hch', hh, gwEventsCap, hgt]
  · rintro msg rfl hty hch' hfull
    have hne : s.gwEvents ≠ [] := by
      intro h; rw [h] at hfull; simp at hfull
    have hdrop : (s.gwEvents ++
        [JVal.obj (spreadFields [("time", JVal.num now)] msg.fields)]).tail
        = s.gwEvents.drop 1 ++
          [JVal.obj (spreadFields [("time", JVal.num now)] msg.fields)] := by
      rw [← List.drop_one]
      exact List.drop_append_of_le_length (by omega)
    have hgt : 50 < s.gwEvents.length + 1 := by omega
    by_cases hh : (oStrEq (getField msg "event") "health" &&
        otruthy (getField msg "payload")) = true <;>
      simp [handleMessage, hty, hch', hh, gwEventsCap, hgt, hdrop]

/-- A concrete state whose event buffer is full (50 distinct events). -/
def fullBufEx : GwState :=
  { gwSocket := some SockSt.open
    gwReady := true
    gwPending := []
    gwReqId := 0
    gwEvents := (List.range 50).map (fun n => JVal.num n)
    gwReconnectTimer := none
    gwSnapshot := none }

/-- The 51st inbound event frame. -/
def ev51 : JVal :=
  .obj [("type", .str "event"), ("event", .str "resume"),
        ("payload", .num 51)]

/-- Witness for C7: inserting a 51st event into a full buffer drops exactly
the oldest entry and appends the new record. -/
theorem c7_event_buffer_bounded_witness :
    fullBufEx.gwEvents.length = 50 ∧
    (handleMessage 7 "u" "v" fullBufEx (some ev51)).1.gwEvents =
      fullBufEx.gwEvents.drop 1 ++
        [JVal.obj (spreadFields [("time", JVal.num 7)] ev51.fields)] :=
  ⟨by decide,
   (c7_event_buffer_bounded 7 "u" "v" fullBufEx (some ev51)
      (by decide)).2.2 ev51 rfl rfl rfl (by decide)⟩

/-- Does this effect arm the reconnect timer? -/
def isArmReconnect : Effect → Bool
  | .armReconnect _ => true
  | _ => false

/-- Does this effect initiate a socket close? -/
def isCloseSock : Effect → Bool
  | .closeSock _ _ => true
  | _ => false

/-- Does this effect send a frame? -/
def isSendFrame : Effect → Bool
  | .sendFrame _ => true
  | _ => false

theorem rejectAll_no_arm (m : List (GwId × PendingEntry)) :
    (rejectAllEffects m).countP isArmReconnect = 0 := by
  induction m with
  | nil => rfl
  | cons p m ih =>
      simp [rejectAllEffects, List.countP_cons, isArmReconnect, ih]

/-- C8: at most one reconnect timer is armed at a time — the close handler
is a no-op on an armed timer and otherwise arms it exactly once with the
fixed 3-second delay; the fired callback clears the armed flag before
invoking connect; and a double close event arms the timer exactly once. -/
theorem c8_reconnect_timer_single :
    (∀ (s : GwState) (d : Nat), s.gwReconnectTimer = some d →
      (handleClose s).1.gwReconnectTimer = some d ∧
      (handleClose s).2.countP isArmReconnect = 0) ∧
    (∀ s : GwState, s.gwReconnectTimer = none →
      (handleClose s).1.gwReconnectTimer = some gwReconnectDelay ∧
      (handleClose s).2.countP isArmReconnect = 1 ∧
      Effect.armReconnect gwReconnectDelay ∈ (handleClose s).2) ∧
    gwReconnectDelay = 3 * 1000 ∧
    (∀ s : GwState, s.gwReconnectTimer ≠ none →
      reconnectFireStep s =
        gwConnectStep { s with gwReconnectTimer := none }) ∧
    (∀ s : GwState, s.gwReconnectTimer = none →
      (run s [GwAction.closeEvt, GwAction.closeEvt]).2.countP
        isArmReconnect = 1) := by
  refine ⟨?_, ?_, rfl, ?_, ?_⟩
  · intro s d h
    refine ⟨by simp [handleClose, h], ?_⟩
    simp only [handleClose, h]
    exact rejectAll_no_arm _
  · intro s h
    refine ⟨by simp [handleClose, h], ?_, ?_⟩
    · simp only [handleClose, h]
      rw [List.countP_append, rejectAll_no_arm]
      rfl
    · simp only [handleClose, h]
      exact List.mem_append_right _ (List.mem_singleton.mpr rfl)
  · intro s h
    rcases hrt : s.gwReconnectTimer with _ | d
    · exact absurd hrt h
    · simp [reconnectFireStep, hrt]
  · intro s h
    have h1 : step s GwAction.closeEvt =
        ({ s with gwReady := false, gwSocket := none, gwPending := [],
                  gwReconnectTimer := some gwReconnectDelay },
         rejectAllEffects s.gwPending ++
           [Effect.armReconnect gwReconnectDelay]) := by
      simp [step, handleClose, h]
    rw [run_cons, h1]
    simp [run_cons, run, step, handleClose, rejectAllEffects,
          List.countP_append, List.countP_cons, rejectAll_no_arm,
          isArmReconnect]

/-- A concrete armed-timer state reached after a close with three pending
calls. -/
def armedTimerEx : GwState :=
  { gwSocket := none
    gwReady := false
    gwPending := []
    gwReqId := 3
    gwEvents := []
    gwReconnectTimer := some gwReconnectDelay
    gwSnapshot := none }

/-- Witness for C8: no re-arming on a second close, single arming from the
unarmed state, flag cleared before connect on fire, and a double close from
the unarmed three-pending state arms exactly once. -/
theorem c8_reconnect_timer_single_witness :
    ((handleClose armedTimerEx).1.gwReconnectTimer =
        some gwReconnectDelay ∧
     (handleClose armedTimerEx).2.countP isArmReconnect = 0) ∧
    ((handleClose twoPendingEx).1.gwReconnectTimer =
        some gwReconnectDelay ∧
     (handleClose twoPendingEx).2.countP isArmReconnect = 1 ∧
     Effect.armReconnect gwReconnectDelay ∈ (handleClose twoPendingEx).2) ∧
    reconnectFireStep armedTimerEx =
      gwConnectStep { armedTimerEx with gwReconnectTimer := none } ∧
    (run twoPendingEx [GwAction.closeEvt, GwAction.closeEvt]).2.countP
      isArmReconnect = 1 :=
  ⟨(c8_reconnect_timer_single.1 armedTimerEx gwReconnectDelay rfl),
   (c8_reconnect_timer_single.2.1 twoPendingEx rfl),
   (c8_reconnect_timer_single.2.2.2.1 armedTimerEx (by simp [armedTimerEx])),
   (c8_reconnect_timer_single.2.2.2.2 twoPendingEx rfl)⟩

/-- A concrete mid-handshake state: socket open, not ready, connect-auth
request pending under uuid "u1". -/
def authPendingEx : GwState :=
  { gwSocket := some SockSt.open
    gwReady := false
    gwPending := [(GwId.uuid "u1", mkEntry PKind.connectAuth 10000)]
    gwReqId := 0
    gwEvents := []
    gwReconnectTimer := none
    gwSnapshot := none }

/-- The gateway's auth-rejection response for that request. -/
def authRejectMsg : JVal :=
  .obj [("type", .str "res"), ("id", .tok (GwId.uuid "u1")),
        ("ok", .bool false),
        ("error", .obj [("message", .str "bad token")])]

/-- Counterexample to C6 as stated: an authentication rejection is *not*
connection-fatal.  Processing the rejection leaves the socket open, arms no
reconnect timer, initiates no close and sends nothing — the handler merely
drops the pending entry and logs. -/
theorem c6_counterexample_auth_reject_not_fatal :
    (handleMessage 0 "u" "v" authPendingEx (some authRejectMsg)).1.gwSocket =
      some SockSt.open ∧
    (handleMessage 0 "u" "v" authPendingEx
      (some authRejectMsg)).1.gwReconnectTimer = none ∧
    (handleMessage 0 "u" "v" authPendingEx
      (some authRejectMsg)).1.gwReady = false ∧
    (handleMessage 0 "u" "v" authPendingEx
      (some authRejectMsg)).2.countP isCloseSock = 0 ∧
    (handleMessage 0 "u" "v" authPendingEx
      (some authRejectMsg)).2.countP isArmReconnect = 0 ∧
    (handleMessage 0 "u" "v" authPendingEx
      (some authRejectMsg)).2.countP isSendFrame = 0 :=
  ⟨rfl, rfl, rfl, rfl, rfl, rfl⟩

/-- C6 (amended): of the three handshake faults only the missing nonce is
connection-fatal — the client closes the socket with code 1008 without
sending any authentication request, and teardown/reconnect follow from the
resulting close event.  An authentication rejection or timeout only removes
the connect-auth pending entry and logs: the socket, readiness flag and
reconnect timer are untouched, and no handshake retry is sent on the same
connection. -/
theorem c6_amended_handshake_faults :
    (∀ (now : Int) (uuid instId : String) (s : GwState) (msg : JVal),
      oStrEq (getField msg "type") "event" = true →
      oStrEq (getField msg "event") "connect.challenge" = true →
      otruthy (getFieldOpt (getField msg "payload") "nonce") = false →
      handleMessage now uuid instId s (some msg) =
        ({ s with gwSocket := some SockSt.closing },
         [Effect.closeSock 1008 "no nonce"])) ∧
    (∀ (now : Int) (uuid instId : String) (s : GwState) (msg : JVal)
        (i : GwId) (tmo : Nat),
      pget s.gwPending i = some (mkEntry PKind.connectAuth tmo) →
      oStrEq (getField msg "type") "res" = true →
      getField msg "id" = some (JVal.tok i) →
      oIsFalse (getField msg "ok") = true →
      handleMessage now uuid instId s (some msg) =
        ({ s with gwPending := pdel s.gwPending i },
         [Effect.cancelTimer i,
          Effect.settle i SettlePath.response
            (Outcome.fail (errReason msg)),
          Effect.log "auth rejected"])) ∧
    (∀ (s : GwState) (i : GwId) (tmo : Nat),
      pget s.gwPending i = some (mkEntry PKind.connectAuth tmo) →
      timerFireStep s i =
        ({ s with gwPending := pdel s.gwPending i },
         [Effect.log "connect timed out"])) := by
  refine ⟨?_, ?_, ?_⟩
  · intro now uuid instId s msg hty hch hn
    simp [handleMessage, hty, hch, hn]
  · intro now uuid instId s msg i tmo hp hres hid hok
    have htype := oStrEq_eq _ _ hres
    simp [handleMessage, htype, hid, hp, mkEntry, hok, oStrEq, otruthy,
          JVal.truthy]
  · intro s i tmo hp
    simp [timerFireStep, hp, mkEntry]

/-- A challenge frame with no nonce in its payload. -/
def noNonceChallenge : JVal :=
  .obj [("type", .str "event"), ("event", .str "connect.challenge"),
        ("payload", .obj [])]

/-- Witness for the amended C6: a nonce-less challenge closes with 1008 and
sends nothing; a concrete auth rejection and a concrete auth timeout leave
socket and reconnect timer untouched. -/
theorem c6_amended_handshake_faults_witness :
    handleMessage 0 "u" "v" initialGwState (some noNonceChallenge) =
      ({ initialGwState with gwSocket := some SockSt.closing },
       [Effect.closeSock 1008 "no nonce"]) ∧
    handleMessage 0 "u" "v" authPendingEx (some authRejectMsg) =
      ({ authPendingEx with
          gwPending := pdel authPendingEx.gwPending (GwId.uuid "u1") },
       [Effect.cancelTimer (GwId.uuid "u1"),
        Effect.settle (GwId.uuid "u1") SettlePath.response
          (Outcome.fail (errReason authRejectMsg)),
        Effect.log "auth rejected"]) ∧
    timerFireStep authPendingEx (GwId.uuid "u1") =
      ({ authPendingEx with
          gwPending := pdel authPendingEx.gwPending (GwId.uuid "u1") },
       [Effect.log "connect timed out"]) :=
  ⟨c6_amended_handshake_faults.1 0 "u" "v" initialGwState noNonceChallenge
     rfl rfl rfl,
   c6_amended_handshake_faults.2.1 0 "u" "v" authPendingEx authRejectMsg
     (GwId.uuid "u1") 10000 (by decide) rfl rfl rfl,
   c6_amended_handshake_faults.2.2 authPendingEx (GwId.uuid "u1") 10000
     (by decide)⟩

/-- A bare success response for `rpc-1` with neither `payload` nor
`result`. -/
def bareOkRes : JVal :=
  .obj [("type", .str "res"), ("id", .tok (GwId.rpc 1)),
        ("ok", .bool true)]

/-- Counterexample to C9 as stated: when a successful response carries
neither a truthy `payload` nor a truthy `result`, the caller is resolved
with the *entire response frame*, whose `id` field is the request's
correlation id. -/
theorem c9_counterexample_success_value_carries_id :
    (handleMessage 0 "u" "v" twoPendingEx (some bareOkRes)).2 =
      [Effect.cancelTimer (GwId.rpc 1),
       Effect.settle (GwId.rpc 1) SettlePath.response
         (Outcome.ok bareOkRes)] ∧
    getField bareOkRes "id" = some (JVal.tok (GwId.rpc 1)) :=
  ⟨rfl, rfl⟩

/-- C9 (amended): the value resolved for a successful response is
`msg.payload || msg.result || msg`: the payload when truthy, else the
result when truthy, else the whole response frame — so the correlation id
is excluded from the delivered value exactly when the response carries a
truthy payload or result, and is exposed through the bare fallback
otherwise. -/
theorem c9_amended_success_value (s : GwState) (i : GwId) (tmo : Nat)
    (method : String) (now : Int) (uuid instId : String) (msg : JVal)
    (hp : pget s.gwPending i = some (mkEntry (PKind.rpc method) tmo))
    (hres : oStrEq (getField msg "type") "res" = true)
    (hid : getField msg "id" = some (JVal.tok i))
    (hok : oIsFalse (getField msg "ok") = false) :
    (handleMessage now uuid instId s (some msg)).2 =
      [Effect.cancelTimer i,
       Effect.settle i SettlePath.response
         (Outcome.ok (jsOr (getField msg "payload")
           (jsOr (getField msg "result") msg)))] ∧
    (∀ v, getField msg "payload" = some v → v.truthy = true →
      jsOr (getField msg "payload") (jsOr (getField msg "result") msg)
        = v) ∧
    (otruthy (getField msg "payload") = false →
      ∀ v, getField msg "result" = some v → v.truthy = true →
        jsOr (getField msg "payload") (jsOr (getField msg "result") msg)
          = v) ∧
    (otruthy (getField msg "payload") = false →
      otruthy (getField msg "result") = false →
      jsOr (getField msg "payload") (jsOr (getField msg "result") msg)
        = msg) := by
  have htype := oStrEq_eq _ _ hres
  refine ⟨?_, ?_, ?_, ?_⟩
  · simp [handleMessage, htype, hid, hp, mkEntry, hok, oStrEq, otruthy,
          JVal.truthy]
  · intro v hv htr
    simp [jsOr, hv, htr]
  · intro hpf v hv htr
    rcases hgp : getField msg "payload" with _ | w
    · simp [jsOr, hgp, hv, htr]
    · rw [hgp] at hpf
      simp only [otruthy] at hpf
      simp [jsOr, hpf, hv, htr]
  · intro hpf hrf
    rcases hgp : getField msg "payload" with _ | w <;>
      rcases hgr : getField msg "result" with _ | x
    · simp [jsOr, hgp, hgr]
    · rw [hgr] at hrf
      simp only [otruthy] at hrf
      simp [jsOr, hgp, hgr, hrf]
    · rw [hgp] at hpf
      simp only [otruthy] at hpf
      simp [jsOr, hgp, hgr, hpf]
    · rw [hgp] at hpf
      rw [hgr] at hrf
      simp only [otruthy] at hpf hrf
      simp [jsOr, hpf, hrf]

/-- A success response for `rpc-1` carrying a truthy payload. -/
def payloadOkRes : JVal :=
  .obj [("type", .str "res"), ("id", .tok (GwId.rpc 1)),
        ("payload", .obj [("status", .str "up")])]

/-- Witness for the amended C9: with a truthy payload the caller receives
exactly the payload, which does not carry the correlation id. -/
theorem c9_amended_success_value_witness :
    (handleMessage 0 "u" "v" twoPendingEx (some payloadOkRes)).2 =
      [Effect.cancelTimer (GwId.rpc 1),
       Effect.settle (GwId.rpc 1) SettlePath.response
         (Outcome.ok (jsOr (getField payloadOkRes "payload")
           (jsOr (getField payloadOkRes "result") payloadOkRes)))] ∧
    jsOr (getField payloadOkRes "payload")
      (jsOr (getField payloadOkRes "result") payloadOkRes) =
      JVal.obj [("status", JVal.str "up")] ∧
    getField (JVal.obj [("status", JVal.str "up")]) "id" = none :=
  ⟨(c9_amended_success_value twoPendingEx (GwId.rpc 1) 15000 "a" 0 "u" "v"
      payloadOkRes (by decide) rfl rfl rfl).1,
   (c9_amended_success_value twoPendingEx (GwId.rpc 1) 15000 "a" 0 "u" "v"
      payloadOkRes (by decide) rfl rfl rfl).2.1
     (JVal.obj [("status", JVal.str "up")]) rfl rfl,
   rfl⟩

theorem getField_obj_setField_self (fs : List (String × JVal)) (k : String)
    (v : JVal) : getField (.obj (setField fs k v)) k = some v := by
  induction fs with
  | nil => simp [setField, getField, List.find?]
  | cons p fs ih =>
      by_cases hp : p.1 = k <;>
        simp only [setField, hp, if_pos, if_neg, not_false_iff]
      · simp [getField, List.find?]
      · simpa [getField, List.find?, hp] using ih

theorem getField_obj_setField_ne (fs : List (String × JVal)) (k k' : String)
    (v : JVal) (h : ¬ k' = k) :
    getField (.obj (setField fs k v)) k' = getField (.obj fs) k' := by
  have h' : ¬ k = k' := fun hc => h hc.symm
  induction fs with
  | nil => simp [setField, getField, List.find?, h']
  | cons p fs ih =>
      by_cases hp : p.1 = k
      · have hp' : ¬ p.1 = k' := fun hc => h' (hp ▸ hc)
        simp [setField, hp, getField, List.find?, h', hp']
      · by_cases hq : p.1 = k'
        · simp [setField, hp, getField, List.find?, hq, h]
        · simpa [setField, hp, getField, List.find?, hq] using ih

/-- Reading a key from a spread object: the source's value for that key if
the source carries the key, else the base's value.  (JSON objects have
unique keys, whence the `Nodup` hypothesis.) -/
theorem getField_spread (base src : List (String × JVal)) (k : String)
    (hnd : (src.map (·.1)).Nodup) :
    getField (.obj (spreadFields base src)) k =
      match src.find? (fun p => p.1 = k) with
      | some q => some q.2
      | none => getField (.obj base) k := by
  induction src generalizing base with
  | nil => simp [spreadFields, List.find?]
  | cons p src ih =>
      simp only [List.map_cons, List.nodup_cons] at hnd
      have hrec : spreadFields base (p :: src) =
          spreadFields (setField base p.1 p.2) src := rfl
      by_cases hk : p.1 = k
      · subst hk
        have hnone : src.find? (fun q => q.1 = p.1) = none := by
          rw [List.find?_eq_none]
          intro q hq
          simp only [decide_eq_true_eq]
          intro hc
          exact hnd.1 (List.mem_map.mpr ⟨q, hq, hc⟩)
        rw [hrec, ih _ hnd.2, hnone]
        simpa [List.find?] using getField_obj_setField_self base p.1 p.2
      · rw [hrec, ih _ hnd.2]
        have hhead : (p :: src).find? (fun q => decide (q.1 = k)) =
            src.find? (fun q => decide (q.1 = k)) := by
          simp [List.find?, hk]
        rw [hhead]
        rcases hf : src.find? (fun q => decide (q.1 = k)) with _ | q <;>
          rw [hf]
        exact getField_obj_setField_ne _ _ _ _ (fun hc => hk hc.symm)

theorem getField_eq_fields_find (msg : JVal) (k : String) :
    getField msg k = (msg.fields.find? (fun p => p.1 = k)).map (·.2) := by
  cases msg <;> rfl

/-- C10: the buffered event record is `{ time: Date.now(), ...msg }` — the
`time` field equals the local receipt timestamp exactly when the frame has
no `time` field of its own; a frame-carried `time` overwrites the local
timestamp, because the spread is applied over the locally written field. -/
theorem c10_event_time_overwritten_by_frame (now : Int) (msg : JVal)
    (hnd : (msg.fields.map (·.1)).Nodup) :
    (getField msg "time" = none →
      getField (JVal.obj (spreadFields [("time", JVal.num now)]
        msg.fields)) "time" = some (JVal.num now)) ∧
    (∀ v, getField msg "time" = some v →
      getField (JVal.obj (spreadFields [("time", JVal.num now)]
        msg.fields)) "time" = some v) ∧
    (∀ (uuid instId : String) (s : GwState),
      oStrEq (getField msg "type") "event" = true →
      oStrEq (getField msg "event") "connect.challenge" = false →
      (handleMessage now uuid instId s (some msg)).1.gwEvents.getLast? =
        some (JVal.obj (spreadFields [("time", JVal.num now)]
          msg.fields))) := by
  refine ⟨?_, ?_, ?_⟩
  · intro h
    rw [getField_eq_fields_find, Option.map_eq_none'] at h
    rw [getField_spread _ _ _ hnd, h]
    rfl
  · intro v h
    rw [getField_eq_fields_find, Option.map_eq_some'] at h
    obtain ⟨q, hq, hv⟩ := h
    rw [getField_spread _ _ _ hnd, hq]
    subst hv
    rfl
  · intro uuid instId s hty hch'
    by_cases hgt : 50 < s.gwEvents.length + 1
    · have hne : s.gwEvents ≠ [] := by
        intro hc; rw [hc] at hgt; simp at hgt
      by_cases hh : (oStrEq (getField msg "event") "health" &&
          otruthy (getField msg "payload")) = true <;>
        simp [handleMessage, hty, hch', hh, gwEventsCap, hgt,
              List.tail_append_of_ne_nil hne, List.getLast?_concat]
    · by_cases hh : (oStrEq (getField msg "event") "health" &&
          otruthy (getField msg "payload")) = true <;>
        simp [handleMessage, hty, hch', hh, gwEventsCap, hgt,
              List.getLast?_concat]

/-- An event frame that carries its own `time` field. -/
def timedEvent : JVal :=
  .obj [("type", .str "event"), ("event", .str "tick"),
        ("time", .num 999)]

/-- An event frame without a `time` field. -/
def untimedEvent : JVal :=
  .obj [("type", .str "event"), ("event", .str "tick")]

/-- Witness for C10: at local time 7, a frame carrying `time: 999` is
buffered with `time = 999`, while a frame without `time` is buffered with
the local timestamp 7. -/
theorem c10_event_time_overwritten_by_frame_witness :
    getField (JVal.obj (spreadFields [("time", JVal.num 7)]
      timedEvent.fields)) "time" = some (JVal.num 999) ∧
    getField (JVal.obj (spreadFields [("time", JVal.num 7)]
      untimedEvent.fields)) "time" = some (JVal.num 7) :=
  ⟨(c10_event_time_overwritten_by_frame 7 timedEvent (by decide)).2.1
     (JVal.num 999) rfl,
   (c10_event_time_overwritten_by_frame 7 untimedEvent (by decide)).1 rfl⟩
